import Mathlib

/-!
A shallow embedding of the Tezos chain controllers
(`src/chains/tezos/tezos.controllers.ts`) of the gateway service, together
with theorems about the reconciliation logic: transaction-status
classification (`poll`), balance and allowance aggregation, approval
construction (`approve`), and transaction normalization
(`toTezosTransaction`).

External collaborators (the `Tezosish` chain client, the wallet toolkit)
are modelled as structures of pure functions, so every operation is a pure
function of a client value and a request.  Client calls that the
controllers observe only through their results are total; the calls whose
failure the controllers handle or propagate (`getWallet`, `contractAt`,
`send`, `getChainId`) return `Except`.  Each aggregation additionally
returns the list of chain-client calls it issued, so that claims about
which fetches happen are statable.
-/

/-- A minimal JSON value model, used for opaque operation payloads
(`contents` of a mempool entry, a finalized transaction, the `parameters`
of an operation). -/
inductive Json where
  | null : Json
  | bool (b : Bool) : Json
  | num (n : Int) : Json
  | str (s : String) : Json
  | arr (elems : List Json) : Json
  | obj (fields : List (String × Json)) : Json
deriving Repr

mutual

/-- Model of JavaScript JSON.stringify on a defined JSON value
(string escaping of exotic characters is not modelled; payloads here are
plain). -/
def Json.stringify : Json → String
  | .null => "null"
  | .bool true => "true"
  | .bool false => "false"
  | .num n => toString n
  | .str s => "\"" ++ s ++ "\""
  | .arr elems => "[" ++ Json.stringifyList elems ++ "]"
  | .obj fields => "\x7b" ++ Json.stringifyObj fields ++ "\x7d"

/-- Comma-separated serialization of a JSON array's elements. -/
def Json.stringifyList : List Json → String
  | [] => ""
  | [j] => Json.stringify j
  | j :: rest => Json.stringify j ++ "," ++ Json.stringifyList rest

/-- Comma-separated serialization of a JSON object's fields. -/
def Json.stringifyObj : List (String × Json) → String
  | [] => ""
  | [kv] => "\"" ++ kv.1 ++ "\":" ++ Json.stringify kv.2
  | kv :: rest =>
      "\"" ++ kv.1 ++ "\":" ++ Json.stringify kv.2 ++ "," ++
        Json.stringifyObj rest

end

/-- Value of a most-significant-first list of decimal digit characters. -/
def digitsVal (cs : List Char) : Nat :=
  cs.foldl (fun a c => a * 10 + (c.toNat - 48)) 0

/-- Model of JavaScript parseInt in base 10: skip leading whitespace, an
optional sign, then the longest run of leading decimal digits; `none`
models NaN (no digits). -/
def jsParseInt (s : String) : Option Int :=
  let cs := s.data.dropWhile Char.isWhitespace
  match cs with
  | '-' :: rest =>
      let digits := rest.takeWhile Char.isDigit
      if digits = [] then none else some (-(digitsVal digits : Int))
  | '+' :: rest =>
      let digits := rest.takeWhile Char.isDigit
      if digits = [] then none else some ((digitsVal digits : Int))
  | _ =>
      let digits := cs.takeWhile Char.isDigit
      if digits = [] then none else some ((digitsVal digits : Int))

/-- JavaScript `+` on two numbers that may be NaN (`none`). -/
def jsAddNaN : Option Int → Option Int → Option Int
  | some a, some b => some (a + b)
  | _, _ => none

/-- JavaScript String(n) on a number that may be NaN. -/
def jsNumberToString : Option Int → String
  | some n => toString n
  | none => "NaN"

/-- Core of the ethers `parseFixed` algorithm on an unsigned decimal
string as a character list: a run of integer-part digits, optionally a
dot and fraction digits; an empty fraction counts as "0"; the fraction
must not exceed `decimals` digits; the result is the value scaled by
`10 ^ decimals`.  `none` models a thrown "invalid decimal value" or
"fractional component exceeds decimals" fault. -/
def parseFixedCore (cs : List Char) (decimals : Nat) : Option Nat :=
  if cs = [] then none
  else
    let whole := cs.takeWhile Char.isDigit
    match cs.dropWhile Char.isDigit with
    | [] => some (digitsVal whole * 10 ^ decimals)
    | '.' :: fr =>
        if fr.all Char.isDigit then
          let fraction := if fr = [] then ['0'] else fr
          if decimals < fraction.length then none
          else
            some (digitsVal whole * 10 ^ decimals +
              digitsVal fraction * 10 ^ (decimals - fraction.length))
        else none
    | _ => none

/-- Model of ethers `utils.parseUnits value decimals` (an external library
dependency of the controllers): parse a signed decimal string and scale it
to the integer base `10 ^ decimals`. -/
def utils_parseUnits (value : String) (decimals : Nat) : Option Int :=
  match value.data with
  | [] => none
  | c :: rest =>
      if c = '-' then
        match parseFixedCore rest decimals with
        | some v => some (-(v : Int))
        | none => none
      else
        match parseFixedCore (c :: rest) decimals with
        | some v => some ((v : Int))
        | none => none

/-- Model of ethers `constants.MaxUint256`, the maximum unsigned 256-bit
integer. -/
def MaxUint256 : Int := 2 ^ 256 - 1

/-- Left-pad a digit string with zeros up to width `d`. -/
def padLeftZeros (s : String) (d : Nat) : String :=
  if s.length < d then String.mk (List.replicate (d - s.length) '0') ++ s
  else s

/-- Modelled from the spec: `bigNumberWithDecimalToStr` of
`services/base` (not under src) renders an integer chain-native quantity
divided by `10 ^ decimals` as a fixed-precision decimal string
(e.g. 1000000 with 6 decimals is rendered "1.000000"). -/
def bigNumberWithDecimalToStr (n : Int) (d : Nat) : String :=
  let sign := if n < 0 then "-" else ""
  let m := n.natAbs
  let ip := m / 10 ^ d
  let fp := m % 10 ^ d
  sign ++ toString ip ++
    (if d = 0 then "" else "." ++ padLeftZeros (toString fp) d)

/-- A chain-native quantity together with its decimal scale, as returned
by the chain client's balance and allowance fetches. -/
structure TokenValue where
  value : Int
  decimals : Nat
deriving Repr, DecidableEq

/-- Modelled from the spec: `tokenValueToString` of `services/base` (not
under src) renders a `TokenValue` as a decimal-scaled string. -/
def tokenValueToString (tv : TokenValue) : String :=
  bigNumberWithDecimalToStr tv.value tv.decimals

/-- Modelled from the spec: the two internal fault codes of
`services/error-handler` (not under src); their concrete numeric values
are irrelevant here, only their identity. -/
inductive ErrorCode where
  | tokenNotSupported : ErrorCode
  | loadWallet : ErrorCode
deriving Repr, DecidableEq

/-- Modelled from the spec: the fixed message template of the
token-not-supported fault (text lives in `services/error-handler`). -/
def TOKEN_NOT_SUPPORTED_ERROR_MESSAGE : String :=
  "Token not supported, please use one of the supported tokens: "

/-- Modelled from the spec: the fixed message template of the wallet-load
fault (text lives in `services/error-handler`). -/
def LOAD_WALLET_ERROR_MESSAGE : String :=
  "Failed to load wallet: "

/-- The internal code of the token-not-supported fault. -/
def TOKEN_NOT_SUPPORTED_ERROR_CODE : ErrorCode := ErrorCode.tokenNotSupported

/-- The internal code of the wallet-load fault. -/
def LOAD_WALLET_ERROR_CODE : ErrorCode := ErrorCode.loadWallet

/-- Model of the structured fault thrown by the controllers: an
HTTP-style status, a message, and an internal error code. -/
structure HttpException where
  status : Nat
  message : String
  errorCode : ErrorCode
deriving Repr, DecidableEq

/-- Registry entry for a token (from `tezos.base`): contract address,
optional per-asset identifier, decimal scale, and contract standard. -/
structure TokenInfo where
  symbol : String
  address : String
  tokenId : Option Nat
  decimals : Nat
  standard : String
deriving Repr, DecidableEq

/-- An entry of one of the five mempool partitions: its operation hash
and its contents (used only for the `applied` partition). -/
structure PendingTx where
  hash : String
  contents : Json
deriving Repr

/-- The mempool snapshot's five partitions. -/
structure PendingTxs where
  applied : List PendingTx
  branch_delayed : List PendingTx
  branch_refused : List PendingTx
  refused : List PendingTx
  unprocessed : List PendingTx
deriving Repr

/-- The balance request: account address and requested token symbols. -/
structure BalanceRequest where
  address : String
  tokenSymbols : List String
deriving Repr

/-- The balance response envelope. -/
structure BalanceResponse where
  network : String
  timestamp : Nat
  latency : Nat
  balances : List (String × String)
deriving Repr

/-- The poll request: a transaction hash. -/
structure PollRequest where
  txHash : String
deriving Repr

/-- The poll response envelope. -/
structure PollResponse where
  network : String
  currentBlock : Nat
  timestamp : Nat
  txHash : String
  txStatus : Int
  txData : Option Json
deriving Repr

/-- The allowances request: owner address, spender, token symbols. -/
structure AllowancesRequest where
  address : String
  spender : String
  tokenSymbols : List String
deriving Repr

/-- The allowances response envelope. -/
structure AllowancesResponse where
  network : String
  timestamp : Nat
  latency : Nat
  spender : String
  approvals : List (String × String)
deriving Repr

/-- The approve request: owner address, spender, token symbol, optional
human-readable amount string (`none` models an omitted field). -/
structure ApproveRequest where
  address : String
  spender : String
  token : String
  amount : Option String
deriving Repr

/-- The normalized chain-agnostic transaction-effect record.  `nonce` is
`none` when the source counter does not parse (JavaScript NaN);
`maxFeePerGas` and `maxPriorityFeePerGas` are nullable; `data` is absent
when the operation has no parameters. -/
structure CustomTransaction where
  hash : String
  «to» : String
  «from» : String
  nonce : Option Int
  gasLimit : String
  maxFeePerGas : Option Int
  value : String
  chainId : String
  data : Option String
  maxPriorityFeePerGas : Option Int
deriving Repr

/-- The chain-native operation-result record
(`OperationContentsAndResultTransaction` of the RPC library): all numeric
cost fields are strings on the wire. -/
structure OperationContentsAndResultTransaction where
  destination : String
  source : String
  counter : String
  gas_limit : String
  storage_limit : String
  amount : String
  parameters : Option Json
deriving Repr

/-- A submitted operation: its hash and its result entries. -/
structure TransactionOperation where
  hash : String
  operationResults : List OperationContentsAndResultTransaction
deriving Repr

/-- The contract invocation `approve` constructs before submitting: either
an allowance-style `approve` entry point carrying a spender and a value,
or an operator-style `update_operators` add-operator entry point carrying
owner, operator and token id (and no amount field). -/
inductive ContractCall where
  | approve (spender : String) (value : Int) : ContractCall
  | updateOperatorsAddOperator (owner : String) (opr : String)
      (token_id : Option Nat) : ContractCall
deriving Repr, DecidableEq

/-- A deployed-contract handle: submits a constructed call. -/
structure TezosContract where
  send : ContractCall → Except String TransactionOperation

/-- The wallet toolkit loaded for a signing address: resolves a deployed
contract by address and exposes the RPC chain-id fetch. -/
structure TezosToolkit where
  contractAt : String → Except String TezosContract
  getChainId : Except String String

/-- A chain-client call issued by an aggregation, recorded so that claims
about which fetches happen are statable. -/
inductive ClientCall where
  | nativeBalance (address : String) : ClientCall
  | tokenBalance (contractAddress : String) (owner : String)
      (tokenId : Nat) (decimals : Nat) : ClientCall
  | tokenAllowance (contractAddress : String) (owner : String)
      (spender : String) (standard : String) (tokenId : Option Nat)
      (decimals : Nat) : ClientCall
deriving Repr, DecidableEq

/-- The chain client interface (`Tezosish`), as the controllers consume
it.  Fetches whose failure the controllers do not handle are total;
`getWallet` returns `Except` because `approve` catches its failure.
`clock0` and `clock1` are the two wall-clock readings a request makes. -/
structure Tezosish where
  nativeTokenSymbol : String
  chainName : String
  chain : String
  getTokenForSymbol : String → Option TokenInfo
  getNativeBalance : String → TokenValue
  getTokenBalance : String → String → Nat → Nat → TokenValue
  getTokenAllowance : String → String → String → String → Option Nat →
    Nat → TokenValue
  getCurrentBlockNumber : Nat
  getPendingTransactions : PendingTxs
  getTransaction : String → Option Json
  getWallet : String → Except String TezosToolkit
  clock0 : Nat
  clock1 : Nat

/-- JavaScript object write `r[k] = v` under insertion-order key
semantics: an existing key keeps its position and gets the new value, a
new key is appended. -/
def recordSet (r : List (String × α)) (k : String) (v : α) :
    List (String × α) :=
  if r.any (fun p => p.1 == k) then
    r.map (fun p => if p.1 == k then (k, v) else p)
  else r ++ [(k, v)]

/-- JavaScript object read `r[k]`: the value at key `k`, if present. -/
def recLookup (r : List (String × α)) (k : String) : Option α :=
  (r.find? (fun p => p.1 == k)).map (fun p => p.2)

/-- One step of symbol resolution: look the symbol up in the registry
and record it when found, drop it otherwise. -/
def tokResolveStep (tezos : Tezosish) (tokens : List (String × TokenInfo))
    (symbol : String) : List (String × TokenInfo) :=
  match tezos.getTokenForSymbol symbol with
  | some token => recordSet tokens symbol token
  | none => tokens

/-- `getTokenSymbolsToTokens`: resolve each requested symbol through the
registry, dropping unknown symbols without error. -/
def getTokenSymbolsToTokens (tezos : Tezosish)
    (tokenSymbols : List String) : List (String × TokenInfo) :=
  tokenSymbols.foldl (tokResolveStep tezos) []

/-- One step of the balance aggregation over a resolved token entry
(`balances`, per-token branch): skip the native symbol, skip tokens with
no `tokenId`, otherwise fetch the token balance and record its
decimal-scaled string together with the issued call. -/
def balStep (tezos : Tezosish) (address : String)
    (acc : List (String × String) × List ClientCall)
    (entry : String × TokenInfo) :
    List (String × String) × List ClientCall :=
  if entry.1 = tezos.nativeTokenSymbol then acc
  else
    match entry.2.tokenId with
    | none => acc
    | some tokenId =>
        let balance :=
          tezos.getTokenBalance entry.2.address address tokenId
            entry.2.decimals
        (recordSet acc.1 entry.1 (tokenValueToString balance),
         acc.2 ++
           [ClientCall.tokenBalance entry.2.address address tokenId
             entry.2.decimals])

/-- The mapping assembled by `balances` together with the chain-client
calls it issues: the native balance first when the native symbol is among
the raw requested symbols, then one step per resolved token. -/
def balancesParts (tezos : Tezosish) (req : BalanceRequest) :
    List (String × String) × List ClientCall :=
  let tokens := getTokenSymbolsToTokens tezos req.tokenSymbols
  let init :
      List (String × String) × List ClientCall :=
    if req.tokenSymbols.contains tezos.nativeTokenSymbol then
      ([(tezos.nativeTokenSymbol,
          tokenValueToString (tezos.getNativeBalance req.address))],
       [ClientCall.nativeBalance req.address])
    else ([], [])
  tokens.foldl (balStep tezos req.address) init

/-- `balances`: aggregate the requested balances; fail with the
token-not-supported fault when the assembled mapping is empty. -/
def balances (tezos : Tezosish) (req : BalanceRequest) :
    Except HttpException BalanceResponse :=
  let parts := balancesParts tezos req
  if parts.1.isEmpty then
    .error ⟨500, TOKEN_NOT_SUPPORTED_ERROR_MESSAGE,
      TOKEN_NOT_SUPPORTED_ERROR_CODE⟩
  else
    .ok { network := tezos.chainName, timestamp := tezos.clock0,
          latency := tezos.clock1 - tezos.clock0, balances := parts.1 }

/-- `poll`: classify a transaction hash against the five mempool
partitions in order, falling back to the finalized-chain lookup. -/
def poll (tezosish : Tezosish) (req : PollRequest) : PollResponse :=
  let currentBlock := tezosish.getCurrentBlockNumber
  let pendingTxs := tezosish.getPendingTransactions
  let st : Int × Option Json :=
    match pendingTxs.applied.find? (fun tx => tx.hash == req.txHash) with
    | some appliedTx => (1, some appliedTx.contents)
    | none =>
      if (pendingTxs.branch_delayed.find?
            (fun tx => tx.hash == req.txHash)).isSome then (2, none)
      else if (pendingTxs.branch_refused.find?
            (fun tx => tx.hash == req.txHash)).isSome then (3, none)
      else if (pendingTxs.refused.find?
            (fun tx => tx.hash == req.txHash)).isSome then (4, none)
      else if (pendingTxs.unprocessed.find?
            (fun tx => tx.hash == req.txHash)).isSome then (5, none)
      else
        match tezosish.getTransaction req.txHash with
        | some tx => (1, some tx)
        | none => (-1, none)
  { network := tezosish.chain, currentBlock := currentBlock,
    timestamp := tezosish.clock0, txHash := req.txHash,
    txStatus := st.1, txData := st.2 }

/-- One step of the allowance aggregation over a resolved token entry:
an fa1.2 token records the literal "0.000000" with no client call, any
other token records the fetched allowance together with the issued
call. -/
def allowStep (tezos : Tezosish) (address : String) (spender : String)
    (acc : List (String × String) × List ClientCall)
    (entry : String × TokenInfo) :
    List (String × String) × List ClientCall :=
  if entry.2.standard = "fa1.2" then
    (recordSet acc.1 entry.1 ("0.000000"), acc.2)
  else
    let v :=
      tezos.getTokenAllowance entry.2.address address spender ("fa2")
        entry.2.tokenId entry.2.decimals
    (recordSet acc.1 entry.1 (tokenValueToString v),
     acc.2 ++
       [ClientCall.tokenAllowance entry.2.address address spender ("fa2")
         entry.2.tokenId entry.2.decimals])

/-- The mapping assembled by `allowances` together with the chain-client
calls it issues. -/
def allowancesParts (tezos : Tezosish) (req : AllowancesRequest) :
    List (String × String) × List ClientCall :=
  (getTokenSymbolsToTokens tezos req.tokenSymbols).foldl
    (allowStep tezos req.address req.spender) ([], [])

/-- `allowances`: aggregate the requested spender allowances; fail with
the token-not-supported fault when the assembled mapping is empty. -/
def allowances (tezos : Tezosish) (req : AllowancesRequest) :
    Except HttpException AllowancesResponse :=
  let parts := allowancesParts tezos req
  if parts.1.isEmpty then
    .error ⟨500, TOKEN_NOT_SUPPORTED_ERROR_MESSAGE,
      TOKEN_NOT_SUPPORTED_ERROR_CODE⟩
  else
    .ok { network := tezos.chainName, timestamp := tezos.clock0,
          latency := tezos.clock1 - tezos.clock0, spender := req.spender,
          approvals := parts.1 }

/-- `toTezosTransaction`: normalize a chain-native operation record into
the chain-agnostic transaction-effect shape. -/
def toTezosTransaction (hash : String)
    (transaction : OperationContentsAndResultTransaction)
    (chainId : String) : CustomTransaction :=
  { hash := hash,
    «to» := transaction.destination,
    «from» := transaction.source,
    nonce := jsParseInt transaction.counter,
    gasLimit :=
      jsNumberToString
        (jsAddNaN (jsParseInt transaction.gas_limit)
          (jsParseInt transaction.storage_limit)),
    maxFeePerGas := none,
    value := transaction.amount,
    chainId := chainId,
    data := Option.map Json.stringify transaction.parameters,
    maxPriorityFeePerGas := none }

/-- JavaScript truthiness of an optional string: `undefined` and the
empty string are falsy. -/
def jsTruthyStr : Option String → Bool
  | none => false
  | some s => !(s == "")

/-- The approval amount `approve` computes: the supplied amount scaled by
the token's decimals when the amount is truthy, the unlimited-approval
sentinel otherwise; `none` models an uncaught parse fault. -/
def approveAmount (amount : Option String) (decimals : Nat) :
    Option Int :=
  if jsTruthyStr amount then utils_parseUnits (amount.getD "") decimals
  else some MaxUint256

/-- An error raised out of `approve`: either a structured fault the
controller constructs itself, or a propagated client/library failure it
does not catch. -/
inductive ApproveError where
  | httpException (e : HttpException) : ApproveError
  | clientError (message : String) : ApproveError
deriving Repr, DecidableEq

/-- The approve response envelope. -/
structure ApproveResponse where
  network : String
  timestamp : Nat
  latency : Nat
  tokenAddress : String
  spender : String
  amount : String
  nonce : Option Int
  approval : CustomTransaction
deriving Repr

/-- `approve`: load the signing wallet (wallet-load fault on failure),
resolve the token (token-not-supported fault on unknown symbol), compute
the approval amount, resolve the contract, construct the
standard-specific call (token-not-supported fault on an unknown
standard), submit it, and normalize the first result entry
(token-not-supported fault when there is none).  The second component is
the list of contract calls submitted. -/
def approve (tezos : Tezosish) (req : ApproveRequest) :
    Except ApproveError ApproveResponse × List ContractCall :=
  match tezos.getWallet req.address with
  | .error err =>
      (.error (.httpException
        ⟨500, LOAD_WALLET_ERROR_MESSAGE ++ err, LOAD_WALLET_ERROR_CODE⟩),
       [])
  | .ok wallet =>
    match tezos.getTokenForSymbol req.token with
    | none =>
        (.error (.httpException
          ⟨500, TOKEN_NOT_SUPPORTED_ERROR_MESSAGE ++ req.token,
            TOKEN_NOT_SUPPORTED_ERROR_CODE⟩), [])
    | some fullToken =>
      match approveAmount req.amount fullToken.decimals with
      | none => (.error (.clientError ("invalid decimal value")), [])
      | some amountBigNumber =>
        match wallet.contractAt fullToken.address with
        | .error e => (.error (.clientError e), [])
        | .ok contract =>
          let callOpt : Option ContractCall :=
            if fullToken.standard = "fa1.2" then
              some (ContractCall.approve req.spender amountBigNumber)
            else if fullToken.standard = "fa2" then
              some (ContractCall.updateOperatorsAddOperator req.address
                req.spender fullToken.tokenId)
            else none
          match callOpt with
          | none =>
              (.error (.httpException
                ⟨500, TOKEN_NOT_SUPPORTED_ERROR_MESSAGE,
                  TOKEN_NOT_SUPPORTED_ERROR_CODE⟩), [])
          | some call =>
            match contract.send call with
            | .error e => (.error (.clientError e), [call])
            | .ok approvalOperation =>
              match approvalOperation.operationResults with
              | [] =>
                  (.error (.httpException
                    ⟨500, TOKEN_NOT_SUPPORTED_ERROR_MESSAGE,
                      TOKEN_NOT_SUPPORTED_ERROR_CODE⟩), [call])
              | op :: _ =>
                match wallet.getChainId with
                | .error e => (.error (.clientError e), [call])
                | .ok chainId =>
                  (.ok { network := tezos.chainName,
                         timestamp := tezos.clock0,
                         latency := tezos.clock1 - tezos.clock0,
                         tokenAddress := fullToken.address,
                         spender := req.spender,
                         amount :=
                           bigNumberWithDecimalToStr amountBigNumber
                             fullToken.decimals,
                         nonce := jsParseInt op.counter,
                         approval :=
                           toTezosTransaction approvalOperation.hash op
                             chainId }, [call])

/-! ### Record (JavaScript object) lemmas -/

theorem recordSet_mem {α : Type} (r : List (String × α)) (k : String)
    (v : α) (a : String) (b : α) :
    (a, b) ∈ recordSet r k v ↔ (a ≠ k ∧ (a, b) ∈ r) ∨ (a = k ∧ b = v) := by
  unfold recordSet
  by_cases h : (r.any fun p => p.1 == k) = true
  · rw [if_pos h]
    rw [List.mem_map]
    constructor
    · rintro ⟨p, hp, hfp⟩
      by_cases hpk : p.1 = k
      · rw [if_pos (by simpa using hpk)] at hfp
        cases hfp
        exact Or.inr ⟨rfl, rfl⟩
      · rw [if_neg (by simpa using hpk)] at hfp
        subst hfp
        exact Or.inl ⟨by simpa using hpk, hp⟩
    · rintro (⟨hak, hab⟩ | ⟨rfl, rfl⟩)
      · exact ⟨(a, b), hab, by rw [if_neg (by simpa using hak)]⟩
      · rcases List.any_eq_true.mp h with ⟨q, hq, hqk⟩
        exact ⟨q, hq, by rw [if_pos hqk]⟩
  · rw [if_neg h]
    have hnone : ∀ p ∈ r, ¬(p.1 = k) := by
      intro p hp hpk
      exact h (List.any_eq_true.mpr ⟨p, hp, by simpa using hpk⟩)
    rw [List.mem_append, List.mem_singleton]
    constructor
    · rintro (hr | hkv)
      · exact Or.inl ⟨fun hak => hnone (a, b) hr hak, hr⟩
      · injection hkv with h1 h2
        exact Or.inr ⟨h1, h2⟩
    · rintro (⟨_, hr⟩ | ⟨rfl, rfl⟩)
      · exact Or.inl hr
      · exact Or.inr rfl

theorem mem_keys_recordSet {α : Type} (r : List (String × α)) (k : String)
    (v : α) (a : String) :
    a ∈ (recordSet r k v).map Prod.fst ↔ a = k ∨ a ∈ r.map Prod.fst := by
  simp only [List.mem_map, Prod.exists]
  constructor
  · rintro ⟨x, y, hxy, rfl⟩
    rcases (recordSet_mem r k v x y).mp hxy with ⟨hne, hr⟩ | ⟨rfl, _⟩
    · exact Or.inr ⟨x, y, hr, rfl⟩
    · exact Or.inl rfl
  · rintro (rfl | ⟨x, y, hr, rfl⟩)
    · exact ⟨a, v, (recordSet_mem r a v a v).mpr (Or.inr ⟨rfl, rfl⟩), rfl⟩
    · by_cases hxk : x = k
      · exact ⟨x, v, (recordSet_mem r k v x v).mpr (Or.inr ⟨hxk, rfl⟩), rfl⟩
      · exact ⟨x, y, (recordSet_mem r k v x y).mpr (Or.inl ⟨hxk, hr⟩), rfl⟩

theorem recordSet_ne_nil {α : Type} (r : List (String × α)) (k : String)
    (v : α) : recordSet r k v ≠ [] := by
  intro hc
  have : k ∈ (recordSet r k v).map Prod.fst :=
    (mem_keys_recordSet r k v k).mpr (Or.inl rfl)
  rw [hc] at this
  cases this

theorem keys_nodup_recordSet {α : Type} (r : List (String × α))
    (k : String) (v : α) (hnd : (r.map Prod.fst).Nodup) :
    ((recordSet r k v).map Prod.fst).Nodup := by
  unfold recordSet
  by_cases h : (r.any fun p => p.1 == k) = true
  · rw [if_pos h]
    have heq :
        (r.map fun p => if (p.1 == k) = true then (k, v) else p).map
            Prod.fst = r.map Prod.fst := by
      rw [List.map_map]
      apply List.map_congr_left
      intro p _
      by_cases hpk : p.1 = k
      · simp [hpk]
      · simp only [Function.comp_apply, beq_iff_eq, if_neg hpk]
    rw [heq]
    exact hnd
  · rw [if_neg h, List.map_append]
    refine List.Nodup.append hnd (List.nodup_singleton k) ?_
    intro x hx hxk
    rw [List.map_singleton, List.mem_singleton] at hxk
    subst hxk
    rcases List.mem_map.mp hx with ⟨p, hp, hpk⟩
    exact h (List.any_eq_true.mpr ⟨p, hp, by simpa using hpk⟩)

/-! ### Token resolution lemmas -/

theorem tokensFold_mem (t : Tezosish) (syms : List String)
    (acc : List (String × TokenInfo))
    (hinv : ∀ p ∈ acc, t.getTokenForSymbol p.1 = some p.2)
    (s : String) (tok : TokenInfo) :
    (s, tok) ∈ syms.foldl (tokResolveStep t) acc ↔
      ((s, tok) ∈ acc ∨
        (s ∈ syms ∧ t.getTokenForSymbol s = some tok)) := by
  induction syms generalizing acc with
  | nil => simp
  | cons y ys ih =>
    rw [List.foldl_cons]
    cases hy : t.getTokenForSymbol y with
    | none =>
      rw [show tokResolveStep t acc y = acc by
        unfold tokResolveStep; rw [hy], ih acc hinv]
      constructor
      · rintro (h | ⟨hmem, hlk⟩)
        · exact Or.inl h
        · exact Or.inr ⟨List.mem_cons_of_mem _ hmem, hlk⟩
      · rintro (h | ⟨hmem, hlk⟩)
        · exact Or.inl h
        · rcases List.mem_cons.mp hmem with rfl | hmem2
          · rw [hy] at hlk
            cases hlk
          · exact Or.inr ⟨hmem2, hlk⟩
    | some token =>
      have hstep : tokResolveStep t acc y = recordSet acc y token := by
        unfold tokResolveStep
        rw [hy]
      have hinv2 : ∀ p ∈ recordSet acc y token,
          t.getTokenForSymbol p.1 = some p.2 := by
        intro p hp
        rcases (recordSet_mem acc y token p.1 p.2).mp
            (by simpa using hp) with ⟨_, hmem⟩ | ⟨h1, h2⟩
        · exact hinv p hmem
        · rw [h1, h2]
          exact hy
      rw [hstep, ih _ hinv2, recordSet_mem]
      constructor
      · rintro ((⟨_, hmem⟩ | ⟨rfl, rfl⟩) | ⟨hmem, hlk⟩)
        · exact Or.inl hmem
        · exact Or.inr ⟨List.mem_cons_self _ _, hy⟩
        · exact Or.inr ⟨List.mem_cons_of_mem _ hmem, hlk⟩
      · rintro (hmem | ⟨hmem, hlk⟩)
        · by_cases hsy : s = y
          · subst hsy
            have := hinv (s, tok) hmem
            rw [hy] at this
            cases this
            exact Or.inl (Or.inr ⟨rfl, rfl⟩)
          · exact Or.inl (Or.inl ⟨hsy, hmem⟩)
        · rcases List.mem_cons.mp hmem with rfl | hmem2
          · rw [hy] at hlk
            cases hlk
            exact Or.inl (Or.inr ⟨rfl, rfl⟩)
          · exact Or.inr ⟨hmem2, hlk⟩

theorem mem_getTokenSymbolsToTokens (t : Tezosish) (syms : List String)
    (s : String) (tok : TokenInfo) :
    (s, tok) ∈ getTokenSymbolsToTokens t syms ↔
      s ∈ syms ∧ t.getTokenForSymbol s = some tok := by
  unfold getTokenSymbolsToTokens
  rw [tokensFold_mem t syms [] (by simp) s tok]
  simp

theorem tokensFold_keys_nodup (t : Tezosish) (syms : List String)
    (acc : List (String × TokenInfo))
    (hnd : (acc.map Prod.fst).Nodup) :
    ((syms.foldl (tokResolveStep t) acc).map Prod.fst).Nodup := by
  induction syms generalizing acc with
  | nil => exact hnd
  | cons y ys ih =>
    rw [List.foldl_cons]
    cases hy : t.getTokenForSymbol y with
    | none =>
      rw [show tokResolveStep t acc y = acc by unfold tokResolveStep; rw [hy]]
      exact ih acc hnd
    | some token =>
      rw [show tokResolveStep t acc y = recordSet acc y token by
        unfold tokResolveStep; rw [hy]]
      exact ih _ (keys_nodup_recordSet acc y token hnd)

theorem getTokenSymbolsToTokens_keys_nodup (t : Tezosish)
    (syms : List String) :
    ((getTokenSymbolsToTokens t syms).map Prod.fst).Nodup :=
  tokensFold_keys_nodup t syms [] (by simp)

/-! ### Balance aggregation lemmas -/

theorem balFold_keys (t : Tezosish) (a : String)
    (l : List (String × TokenInfo))
    (acc : List (String × String) × List ClientCall) (s : String) :
    s ∈ (l.foldl (balStep t a) acc).1.map Prod.fst ↔
      (s ∈ acc.1.map Prod.fst ∨
        ∃ tok tid, (s, tok) ∈ l ∧ s ≠ t.nativeTokenSymbol ∧
          tok.tokenId = some tid) := by
  induction l generalizing acc with
  | nil => simp
  | cons e tl ih =>
    obtain ⟨e1, e2⟩ := e
    rw [List.foldl_cons]
    by_cases hnat : e1 = t.nativeTokenSymbol
    · rw [show balStep t a acc (e1, e2) = acc by
        unfold balStep; rw [if_pos hnat], ih acc]
      constructor
      · rintro (h | ⟨tok, tid, hmem, hne, hid⟩)
        · exact Or.inl h
        · exact Or.inr ⟨tok, tid, List.mem_cons_of_mem _ hmem, hne, hid⟩
      · rintro (h | ⟨tok, tid, hmem, hne, hid⟩)
        · exact Or.inl h
        · rcases List.mem_cons.mp hmem with heq | hmem2
          · injection heq with h1 h2
            exact absurd (h1.trans hnat) hne
          · exact Or.inr ⟨tok, tid, hmem2, hne, hid⟩
    · cases hid0 : e2.tokenId with
      | none =>
        rw [show balStep t a acc (e1, e2) = acc by
          unfold balStep; rw [if_neg hnat]; simp [hid0], ih acc]
        constructor
        · rintro (h | ⟨tok, tid, hmem, hne, hid⟩)
          · exact Or.inl h
          · exact Or.inr ⟨tok, tid, List.mem_cons_of_mem _ hmem, hne, hid⟩
        · rintro (h | ⟨tok, tid, hmem, hne, hid⟩)
          · exact Or.inl h
          · rcases List.mem_cons.mp hmem with heq | hmem2
            · injection heq with h1 h2
              rw [h2, hid0] at hid
              cases hid
            · exact Or.inr ⟨tok, tid, hmem2, hne, hid⟩
      | some tid0 =>
        rw [show balStep t a acc (e1, e2) =
            (recordSet acc.1 e1
              (tokenValueToString
                (t.getTokenBalance e2.address a tid0 e2.decimals)),
             acc.2 ++
               [ClientCall.tokenBalance e2.address a tid0 e2.decimals]) by
          unfold balStep; rw [if_neg hnat]; simp [hid0], ih _]
    
        rw [show (recordSet acc.1 e1
              (tokenValueToString
                (t.getTokenBalance e2.address a tid0 e2.decimals)),
             acc.2 ++
               [ClientCall.tokenBalance e2.address a tid0 e2.decimals]).1 =
            recordSet acc.1 e1
              (tokenValueToString
                (t.getTokenBalance e2.address a tid0 e2.decimals)) from rfl]
        rw [mem_keys_recordSet]
        constructor
        · rintro ((rfl | h) | ⟨tok, tid, hmem, hne, hid⟩)
          · exact Or.inr ⟨e2, tid0, List.mem_cons_self _ _, hnat, hid0⟩
          · exact Or.inl h
          · exact Or.inr ⟨tok, tid, List.mem_cons_of_mem _ hmem, hne, hid⟩
        · rintro (h | ⟨tok, tid, hmem, hne, hid⟩)
          · exact Or.inl (Or.inr h)
          · rcases List.mem_cons.mp hmem with heq | hmem2
            · injection heq with h1 _
              exact Or.inl (Or.inl h1)
            · exact Or.inr ⟨tok, tid, hmem2, hne, hid⟩

theorem balFold_calls (t : Tezosish) (a : String)
    (l : List (String × TokenInfo))
    (acc : List (String × String) × List ClientCall) (c : ClientCall) :
    c ∈ (l.foldl (balStep t a) acc).2 ↔
      (c ∈ acc.2 ∨
        ∃ s tok tid, (s, tok) ∈ l ∧ s ≠ t.nativeTokenSymbol ∧
          tok.tokenId = some tid ∧
          c = ClientCall.tokenBalance tok.address a tid tok.decimals) := by
  induction l generalizing acc with
  | nil => simp
  | cons e tl ih =>
    obtain ⟨e1, e2⟩ := e
    rw [List.foldl_cons]
    by_cases hnat : e1 = t.nativeTokenSymbol
    · rw [show balStep t a acc (e1, e2) = acc by
        unfold balStep; rw [if_pos hnat], ih acc]
      constructor
      · rintro (h | ⟨s, tok, tid, hmem, hne, hid, hc⟩)
        · exact Or.inl h
        · exact Or.inr ⟨s, tok, tid, List.mem_cons_of_mem _ hmem, hne, hid, hc⟩
      · rintro (h | ⟨s, tok, tid, hmem, hne, hid, hc⟩)
        · exact Or.inl h
        · rcases List.mem_cons.mp hmem with heq | hmem2
          · injection heq with h1 h2
            exact absurd (h1.trans hnat) hne
          · exact Or.inr ⟨s, tok, tid, hmem2, hne, hid, hc⟩
    · cases hid0 : e2.tokenId with
      | none =>
        rw [show balStep t a acc (e1, e2) = acc by
          unfold balStep; rw [if_neg hnat]; simp [hid0], ih acc]
        constructor
        · rintro (h | ⟨s, tok, tid, hmem, hne, hid, hc⟩)
          · exact Or.inl h
          · exact Or.inr ⟨s, tok, tid, List.mem_cons_of_mem _ hmem, hne, hid, hc⟩
        · rintro (h | ⟨s, tok, tid, hmem, hne, hid, hc⟩)
          · exact Or.inl h
          · rcases List.mem_cons.mp hmem with heq | hmem2
            · injection heq with h1 h2
              rw [h2, hid0] at hid
              cases hid
            · exact Or.inr ⟨s, tok, tid, hmem2, hne, hid, hc⟩
      | some tid0 =>
        rw [show balStep t a acc (e1, e2) =
            (recordSet acc.1 e1
              (tokenValueToString
                (t.getTokenBalance e2.address a tid0 e2.decimals)),
             acc.2 ++
               [ClientCall.tokenBalance e2.address a tid0 e2.decimals]) by
          unfold balStep; rw [if_neg hnat]; simp [hid0], ih _]
        rw [show (recordSet acc.1 e1
              (tokenValueToString
                (t.getTokenBalance e2.address a tid0 e2.decimals)),
             acc.2 ++
               [ClientCall.tokenBalance e2.address a tid0 e2.decimals]).2 =
            acc.2 ++
              [ClientCall.tokenBalance e2.address a tid0 e2.decimals]
          from rfl]
        rw [List.mem_append, List.mem_singleton]
        constructor
        · rintro ((h | rfl) | ⟨s, tok, tid, hmem, hne, hid, hc⟩)
          · exact Or.inl h
          · exact Or.inr ⟨e1, e2, tid0, List.mem_cons_self _ _, hnat, hid0, rfl⟩
          · exact Or.inr ⟨s, tok, tid, List.mem_cons_of_mem _ hmem, hne, hid, hc⟩
        · rintro (h | ⟨s, tok, tid, hmem, hne, hid, hc⟩)
          · exact Or.inl (Or.inl h)
          · rcases List.mem_cons.mp hmem with heq | hmem2
            · injection heq with h1 h2
              subst h1
              subst h2
              rw [hid0] at hid
              injection hid with h3
              subst h3
              exact Or.inl (Or.inr hc)
            · exact Or.inr ⟨s, tok, tid, hmem2, hne, hid, hc⟩

theorem balFold_mem (t : Tezosish) (a : String)
    (l : List (String × TokenInfo))
    (acc : List (String × String) × List ClientCall)
    (hnodup : (l.map Prod.fst).Nodup)
    (hdisj : ∀ s ∈ l.map Prod.fst, s ≠ t.nativeTokenSymbol →
      s ∉ acc.1.map Prod.fst)
    (s : String) (val : String) :
    (s, val) ∈ (l.foldl (balStep t a) acc).1 ↔
      ((s, val) ∈ acc.1 ∨
        ∃ tok tid, (s, tok) ∈ l ∧ s ≠ t.nativeTokenSymbol ∧
          tok.tokenId = some tid ∧
          val = tokenValueToString
            (t.getTokenBalance tok.address a tid tok.decimals)) := by
  induction l generalizing acc with
  | nil => simp
  | cons e tl ih =>
    obtain ⟨e1, e2⟩ := e
    rw [List.map_cons] at hnodup
    have hnd2 : (tl.map Prod.fst).Nodup := hnodup.of_cons
    have he1tl : e1 ∉ tl.map Prod.fst := (List.nodup_cons.mp hnodup).1
    rw [List.foldl_cons]
    by_cases hnat : e1 = t.nativeTokenSymbol
    · rw [show balStep t a acc (e1, e2) = acc by
        unfold balStep; rw [if_pos hnat], ih acc hnd2
          (fun x hx hxn => hdisj x (by simp [hx]) hxn)]
      constructor
      · rintro (h | ⟨tok, tid, hmem, hne, hid, hval⟩)
        · exact Or.inl h
        · exact Or.inr ⟨tok, tid, List.mem_cons_of_mem _ hmem, hne, hid, hval⟩
      · rintro (h | ⟨tok, tid, hmem, hne, hid, hval⟩)
        · exact Or.inl h
        · rcases List.mem_cons.mp hmem with heq | hmem2
          · injection heq with h1 h2
            exact absurd (h1.trans hnat) hne
          · exact Or.inr ⟨tok, tid, hmem2, hne, hid, hval⟩
    · cases hid0 : e2.tokenId with
      | none =>
        rw [show balStep t a acc (e1, e2) = acc by
          unfold balStep; rw [if_neg hnat]; simp [hid0], ih acc hnd2
            (fun x hx hxn => hdisj x (by simp [hx]) hxn)]
        constructor
        · rintro (h | ⟨tok, tid, hmem, hne, hid, hval⟩)
          · exact Or.inl h
          · exact Or.inr ⟨tok, tid, List.mem_cons_of_mem _ hmem, hne, hid,
              hval⟩
        · rintro (h | ⟨tok, tid, hmem, hne, hid, hval⟩)
          · exact Or.inl h
          · rcases List.mem_cons.mp hmem with heq | hmem2
            · injection heq with h1 h2
              rw [h2, hid0] at hid
              cases hid
            · exact Or.inr ⟨tok, tid, hmem2, hne, hid, hval⟩
      | some tid0 =>
        have hstep : balStep t a acc (e1, e2) =
            (recordSet acc.1 e1
              (tokenValueToString
                (t.getTokenBalance e2.address a tid0 e2.decimals)),
             acc.2 ++
               [ClientCall.tokenBalance e2.address a tid0 e2.decimals]) := by
          unfold balStep
          rw [if_neg hnat]
          simp [hid0]
        have hdisj2 : ∀ x ∈ tl.map Prod.fst, x ≠ t.nativeTokenSymbol →
            x ∉ (recordSet acc.1 e1
              (tokenValueToString
                (t.getTokenBalance e2.address a tid0
                  e2.decimals))).map Prod.fst := by
          intro x hx hxn hc
          rcases (mem_keys_recordSet _ _ _ x).mp hc with rfl | hc2
          · exact he1tl hx
          · exact hdisj x (by simp [hx]) hxn hc2
        rw [hstep, ih _ hnd2 hdisj2]
        rw [show (recordSet acc.1 e1
              (tokenValueToString
                (t.getTokenBalance e2.address a tid0 e2.decimals)),
             acc.2 ++
               [ClientCall.tokenBalance e2.address a tid0 e2.decimals]).1 =
            recordSet acc.1 e1
              (tokenValueToString
                (t.getTokenBalance e2.address a tid0 e2.decimals))
          from rfl]
        rw [recordSet_mem]
        constructor
        · rintro ((⟨_, hacc⟩ | ⟨rfl, rfl⟩) | ⟨tok, tid, hmem, hne, hid, hval⟩)
          · exact Or.inl hacc
          · exact Or.inr ⟨e2, tid0, List.mem_cons_self _ _, hnat, hid0, rfl⟩
          · exact Or.inr ⟨tok, tid, List.mem_cons_of_mem _ hmem, hne, hid,
              hval⟩
        · rintro (hacc | ⟨tok, tid, hmem, hne, hid, hval⟩)
          · left
            left
            refine ⟨?_, hacc⟩
            intro hse1
            subst hse1
            exact hdisj s (by simp) hnat
              (List.mem_map.mpr ⟨(s, val), hacc, rfl⟩)
          · rcases List.mem_cons.mp hmem with heq | hmem2
            · injection heq with h1 h2
              subst h1
              subst h2
              rw [hid0] at hid
              injection hid with h3
              subst h3
              exact Or.inl (Or.inr ⟨rfl, hval⟩)
            · exact Or.inr ⟨tok, tid, hmem2, hne, hid, hval⟩

/-! ### Allowance aggregation lemmas -/

/-- The allowance string recorded for one resolved token: the fixed zero
string for the fa1.2 standard, the fetched allowance otherwise. -/
def allowValueFor (t : Tezosish) (a : String) (sp : String)
    (tok : TokenInfo) : String :=
  if tok.standard = "fa1.2" then "0.000000"
  else
    tokenValueToString
      (t.getTokenAllowance tok.address a sp ("fa2") tok.tokenId
        tok.decimals)

theorem allowStep_eq (t : Tezosish) (a : String) (sp : String)
    (acc : List (String × String) × List ClientCall)
    (e : String × TokenInfo) :
    allowStep t a sp acc e =
      (recordSet acc.1 e.1 (allowValueFor t a sp e.2),
       acc.2 ++
         (if e.2.standard = "fa1.2" then []
          else
            [ClientCall.tokenAllowance e.2.address a sp ("fa2")
              e.2.tokenId e.2.decimals])) := by
  unfold allowStep allowValueFor
  by_cases h : e.2.standard = "fa1.2" <;> simp [h]

theorem allowFold_keys (t : Tezosish) (a : String) (sp : String)
    (l : List (String × TokenInfo))
    (acc : List (String × String) × List ClientCall) (s : String) :
    s ∈ (l.foldl (allowStep t a sp) acc).1.map Prod.fst ↔
      (s ∈ acc.1.map Prod.fst ∨ ∃ tok, (s, tok) ∈ l) := by
  induction l generalizing acc with
  | nil => simp
  | cons e tl ih =>
    obtain ⟨e1, e2⟩ := e
    rw [List.foldl_cons, allowStep_eq, ih]
    rw [show (recordSet acc.1 e1 (allowValueFor t a sp e2),
         acc.2 ++
           (if e2.standard = "fa1.2" then []
            else
              [ClientCall.tokenAllowance e2.address a sp ("fa2")
                e2.tokenId e2.decimals])).1 =
        recordSet acc.1 e1 (allowValueFor t a sp e2) from rfl]
    rw [mem_keys_recordSet]
    constructor
    · rintro ((rfl | h) | ⟨tok, hmem⟩)
      · exact Or.inr ⟨e2, List.mem_cons_self _ _⟩
      · exact Or.inl h
      · exact Or.inr ⟨tok, List.mem_cons_of_mem _ hmem⟩
    · rintro (h | ⟨tok, hmem⟩)
      · exact Or.inl (Or.inr h)
      · rcases List.mem_cons.mp hmem with heq | hmem2
        · injection heq with h1 _
          exact Or.inl (Or.inl h1)
        · exact Or.inr ⟨tok, hmem2⟩

theorem allowFold_calls (t : Tezosish) (a : String) (sp : String)
    (l : List (String × TokenInfo))
    (acc : List (String × String) × List ClientCall) (c : ClientCall) :
    c ∈ (l.foldl (allowStep t a sp) acc).2 ↔
      (c ∈ acc.2 ∨
        ∃ s tok, (s, tok) ∈ l ∧ ¬(tok.standard = "fa1.2") ∧
          c = ClientCall.tokenAllowance tok.address a sp ("fa2")
            tok.tokenId tok.decimals) := by
  induction l generalizing acc with
  | nil => simp
  | cons e tl ih =>
    obtain ⟨e1, e2⟩ := e
    rw [List.foldl_cons, allowStep_eq, ih]
    rw [show (recordSet acc.1 e1 (allowValueFor t a sp e2),
         acc.2 ++
           (if e2.standard = "fa1.2" then []
            else
              [ClientCall.tokenAllowance e2.address a sp ("fa2")
                e2.tokenId e2.decimals])).2 =
        acc.2 ++
          (if e2.standard = "fa1.2" then []
           else
             [ClientCall.tokenAllowance e2.address a sp ("fa2")
               e2.tokenId e2.decimals]) from rfl]
    rw [List.mem_append]
    by_cases hstd : e2.standard = "fa1.2"
    · rw [if_pos hstd]
      constructor
      · rintro ((h | h) | ⟨s, tok, hmem, hns, hc⟩)
        · exact Or.inl h
        · cases h
        · exact Or.inr ⟨s, tok, List.mem_cons_of_mem _ hmem, hns, hc⟩
      · rintro (h | ⟨s, tok, hmem, hns, hc⟩)
        · exact Or.inl (Or.inl h)
        · rcases List.mem_cons.mp hmem with heq | hmem2
          · injection heq with h1 h2
            rw [h2] at hns
            exact absurd hstd hns
          · exact Or.inr ⟨s, tok, hmem2, hns, hc⟩
    · rw [if_neg hstd]
      constructor
      · rintro ((h | h) | ⟨s, tok, hmem, hns, hc⟩)
        · exact Or.inl h
        · rw [List.mem_singleton] at h
          exact Or.inr ⟨e1, e2, List.mem_cons_self _ _, hstd, h⟩
        · exact Or.inr ⟨s, tok, List.mem_cons_of_mem _ hmem, hns, hc⟩
      · rintro (h | ⟨s, tok, hmem, hns, hc⟩)
        · exact Or.inl (Or.inl h)
        · rcases List.mem_cons.mp hmem with heq | hmem2
          · injection heq with h1 h2
            subst h1
            subst h2
            exact Or.inl (Or.inr (List.mem_singleton.mpr hc))
          · exact Or.inr ⟨s, tok, hmem2, hns, hc⟩

theorem allowFold_mem (t : Tezosish) (a : String) (sp : String)
    (l : List (String × TokenInfo))
    (acc : List (String × String) × List ClientCall)
    (hnodup : (l.map Prod.fst).Nodup)
    (hdisj : ∀ s ∈ l.map Prod.fst, s ∉ acc.1.map Prod.fst)
    (s : String) (val : String) :
    (s, val) ∈ (l.foldl (allowStep t a sp) acc).1 ↔
      ((s, val) ∈ acc.1 ∨
        ∃ tok, (s, tok) ∈ l ∧ val = allowValueFor t a sp tok) := by
  induction l generalizing acc with
  | nil => simp
  | cons e tl ih =>
    obtain ⟨e1, e2⟩ := e
    rw [List.map_cons] at hnodup
    have hnd2 : (tl.map Prod.fst).Nodup := hnodup.of_cons
    have he1tl : e1 ∉ tl.map Prod.fst := (List.nodup_cons.mp hnodup).1
    have hdisj2 : ∀ x ∈ tl.map Prod.fst,
        x ∉ (recordSet acc.1 e1 (allowValueFor t a sp e2)).map Prod.fst := by
      intro x hx hc
      rcases (mem_keys_recordSet _ _ _ x).mp hc with rfl | hc2
      · exact he1tl hx
      · exact hdisj x (by simp [hx]) hc2
    rw [List.foldl_cons, allowStep_eq]
    rw [ih (recordSet acc.1 e1 (allowValueFor t a sp e2),
         acc.2 ++
           (if e2.standard = "fa1.2" then []
            else
              [ClientCall.tokenAllowance e2.address a sp ("fa2")
                e2.tokenId e2.decimals])) hnd2 hdisj2]
    rw [show (recordSet acc.1 e1 (allowValueFor t a sp e2),
         acc.2 ++
           (if e2.standard = "fa1.2" then []
            else
              [ClientCall.tokenAllowance e2.address a sp ("fa2")
                e2.tokenId e2.decimals])).1 =
        recordSet acc.1 e1 (allowValueFor t a sp e2) from rfl]
    rw [recordSet_mem]
    constructor
    · rintro ((⟨_, hacc⟩ | ⟨rfl, rfl⟩) | ⟨tok, hmem, hval⟩)
      · exact Or.inl hacc
      · exact Or.inr ⟨e2, List.mem_cons_self _ _, rfl⟩
      · exact Or.inr ⟨tok, List.mem_cons_of_mem _ hmem, hval⟩
    · rintro (hacc | ⟨tok, hmem, hval⟩)
      · left
        left
        refine ⟨?_, hacc⟩
        intro hse1
        subst hse1
        exact hdisj s (by simp)
          (List.mem_map.mpr ⟨(s, val), hacc, rfl⟩)
      · rcases List.mem_cons.mp hmem with heq | hmem2
        · injection heq with h1 h2
          subst h1
          subst h2
          exact Or.inl (Or.inr ⟨rfl, hval⟩)
        · exact Or.inr ⟨tok, hmem2, hval⟩

/-! ### Assembled aggregation characterizations -/

theorem balancesParts_mem (t : Tezosish) (req : BalanceRequest)
    (s : String) (val : String) :
    (s, val) ∈ (balancesParts t req).1 ↔
      ((s = t.nativeTokenSymbol ∧
          t.nativeTokenSymbol ∈ req.tokenSymbols ∧
          val = tokenValueToString (t.getNativeBalance req.address)) ∨
        ∃ tok tid, s ∈ req.tokenSymbols ∧
          t.getTokenForSymbol s = some tok ∧
          s ≠ t.nativeTokenSymbol ∧ tok.tokenId = some tid ∧
          val = tokenValueToString
            (t.getTokenBalance tok.address req.address tid
              tok.decimals)) := by
  simp only [balancesParts]
  by_cases hc : req.tokenSymbols.contains t.nativeTokenSymbol = true
  · rw [if_pos hc]
    have hmemnat : t.nativeTokenSymbol ∈ req.tokenSymbols :=
      List.elem_iff.mp hc
    rw [balFold_mem t req.address _ _
      (getTokenSymbolsToTokens_keys_nodup t req.tokenSymbols)
      (by
        intro x _ hxn hx2
        rw [List.map_cons, List.map_nil, List.mem_singleton] at hx2
        exact hxn hx2)]
    rw [List.mem_singleton]
    constructor
    · rintro (heq | ⟨tok, tid, hmem, hne, hid, hval⟩)
      · injection heq with h1 h2
        exact Or.inl ⟨h1, hmemnat, h2⟩
      · rcases (mem_getTokenSymbolsToTokens t req.tokenSymbols s
          tok).mp hmem with ⟨hs, hlk⟩
        exact Or.inr ⟨tok, tid, hs, hlk, hne, hid, hval⟩
    · rintro (⟨rfl, _, rfl⟩ | ⟨tok, tid, hs, hlk, hne, hid, hval⟩)
      · exact Or.inl rfl
      · exact Or.inr ⟨tok, tid,
          (mem_getTokenSymbolsToTokens t req.tokenSymbols s tok).mpr
            ⟨hs, hlk⟩, hne, hid, hval⟩
  · rw [if_neg hc]
    have hnotnat : t.nativeTokenSymbol ∉ req.tokenSymbols := by
      intro hmem
      exact hc (List.elem_iff.mpr hmem)
    rw [balFold_mem t req.address _ _
      (getTokenSymbolsToTokens_keys_nodup t req.tokenSymbols)
      (by intro x _ _ hx2; simp at hx2)]
    constructor
    · rintro (h | ⟨tok, tid, hmem, hne, hid, hval⟩)
      · simp at h
      · rcases (mem_getTokenSymbolsToTokens t req.tokenSymbols s
          tok).mp hmem with ⟨hs, hlk⟩
        exact Or.inr ⟨tok, tid, hs, hlk, hne, hid, hval⟩
    · rintro (⟨rfl, hmem, _⟩ | ⟨tok, tid, hs, hlk, hne, hid, hval⟩)
      · exact absurd hmem hnotnat
      · exact Or.inr ⟨tok, tid,
          (mem_getTokenSymbolsToTokens t req.tokenSymbols s tok).mpr
            ⟨hs, hlk⟩, hne, hid, hval⟩

theorem balancesParts_keys (t : Tezosish) (req : BalanceRequest)
    (s : String) :
    s ∈ (balancesParts t req).1.map Prod.fst ↔
      ((s = t.nativeTokenSymbol ∧
          t.nativeTokenSymbol ∈ req.tokenSymbols) ∨
        ∃ tok tid, s ∈ req.tokenSymbols ∧
          t.getTokenForSymbol s = some tok ∧
          s ≠ t.nativeTokenSymbol ∧ tok.tokenId = some tid) := by
  rw [List.mem_map]
  constructor
  · rintro ⟨p, hp, rfl⟩
    rcases (balancesParts_mem t req p.1 p.2).mp (by simpa using hp) with
      ⟨h1, h2, _⟩ | ⟨tok, tid, hs, hlk, hne, hid, _⟩
    · exact Or.inl ⟨h1, h2⟩
    · exact Or.inr ⟨tok, tid, hs, hlk, hne, hid⟩
  · rintro (⟨rfl, hmem⟩ | ⟨tok, tid, hs, hlk, hne, hid⟩)
    · exact ⟨(t.nativeTokenSymbol,
        tokenValueToString (t.getNativeBalance req.address)),
        (balancesParts_mem t req _ _).mpr (Or.inl ⟨rfl, hmem, rfl⟩), rfl⟩
    · exact ⟨(s, tokenValueToString
        (t.getTokenBalance tok.address req.address tid tok.decimals)),
        (balancesParts_mem t req _ _).mpr
          (Or.inr ⟨tok, tid, hs, hlk, hne, hid, rfl⟩), rfl⟩

theorem balancesParts_calls (t : Tezosish) (req : BalanceRequest)
    (c : ClientCall) :
    c ∈ (balancesParts t req).2 ↔
      ((c = ClientCall.nativeBalance req.address ∧
          t.nativeTokenSymbol ∈ req.tokenSymbols) ∨
        ∃ s tok tid, s ∈ req.tokenSymbols ∧
          t.getTokenForSymbol s = some tok ∧
          s ≠ t.nativeTokenSymbol ∧ tok.tokenId = some tid ∧
          c = ClientCall.tokenBalance tok.address req.address tid
            tok.decimals) := by
  simp only [balancesParts]
  by_cases hc : req.tokenSymbols.contains t.nativeTokenSymbol = true
  · rw [if_pos hc]
    have hmemnat : t.nativeTokenSymbol ∈ req.tokenSymbols :=
      List.elem_iff.mp hc
    rw [balFold_calls]
    rw [List.mem_singleton]
    constructor
    · rintro (h | ⟨s, tok, tid, hmem, hne, hid, hcall⟩)
      · exact Or.inl ⟨h, hmemnat⟩
      · rcases (mem_getTokenSymbolsToTokens t req.tokenSymbols s
          tok).mp hmem with ⟨hs, hlk⟩
        exact Or.inr ⟨s, tok, tid, hs, hlk, hne, hid, hcall⟩
    · rintro (⟨h, _⟩ | ⟨s, tok, tid, hs, hlk, hne, hid, hcall⟩)
      · exact Or.inl h
      · exact Or.inr ⟨s, tok, tid,
          (mem_getTokenSymbolsToTokens t req.tokenSymbols s tok).mpr
            ⟨hs, hlk⟩, hne, hid, hcall⟩
  · rw [if_neg hc]
    have hnotnat : t.nativeTokenSymbol ∉ req.tokenSymbols := by
      intro hmem
      exact hc (List.elem_iff.mpr hmem)
    rw [balFold_calls]
    constructor
    · rintro (h | ⟨s, tok, tid, hmem, hne, hid, hcall⟩)
      · simp at h
      · rcases (mem_getTokenSymbolsToTokens t req.tokenSymbols s
          tok).mp hmem with ⟨hs, hlk⟩
        exact Or.inr ⟨s, tok, tid, hs, hlk, hne, hid, hcall⟩
    · rintro (⟨_, hmem⟩ | ⟨s, tok, tid, hs, hlk, hne, hid, hcall⟩)
      · exact absurd hmem hnotnat
      · exact Or.inr ⟨s, tok, tid,
          (mem_getTokenSymbolsToTokens t req.tokenSymbols s tok).mpr
            ⟨hs, hlk⟩, hne, hid, hcall⟩

theorem allowancesParts_mem (t : Tezosish) (req : AllowancesRequest)
    (s : String) (val : String) :
    (s, val) ∈ (allowancesParts t req).1 ↔
      ∃ tok, s ∈ req.tokenSymbols ∧
        t.getTokenForSymbol s = some tok ∧
        val = allowValueFor t req.address req.spender tok := by
  simp only [allowancesParts]
  rw [allowFold_mem t req.address req.spender _ _
    (getTokenSymbolsToTokens_keys_nodup t req.tokenSymbols)
    (by intro x _ hx2; simp at hx2)]
  constructor
  · rintro (h | ⟨tok, hmem, hval⟩)
    · simp at h
    · rcases (mem_getTokenSymbolsToTokens t req.tokenSymbols s tok).mp
        hmem with ⟨hs, hlk⟩
      exact ⟨tok, hs, hlk, hval⟩
  · rintro ⟨tok, hs, hlk, hval⟩
    exact Or.inr ⟨tok,
      (mem_getTokenSymbolsToTokens t req.tokenSymbols s tok).mpr
        ⟨hs, hlk⟩, hval⟩

theorem allowancesParts_keys (t : Tezosish) (req : AllowancesRequest)
    (s : String) :
    s ∈ (allowancesParts t req).1.map Prod.fst ↔
      ∃ tok, s ∈ req.tokenSymbols ∧
        t.getTokenForSymbol s = some tok := by
  rw [List.mem_map]
  constructor
  · rintro ⟨p, hp, rfl⟩
    rcases (allowancesParts_mem t req p.1 p.2).mp (by simpa using hp)
      with ⟨tok, hs, hlk, _⟩
    exact ⟨tok, hs, hlk⟩
  · rintro ⟨tok, hs, hlk⟩
    exact ⟨(s, allowValueFor t req.address req.spender tok),
      (allowancesParts_mem t req _ _).mpr ⟨tok, hs, hlk, rfl⟩, rfl⟩

theorem allowancesParts_calls (t : Tezosish) (req : AllowancesRequest)
    (c : ClientCall) :
    c ∈ (allowancesParts t req).2 ↔
      ∃ s tok, s ∈ req.tokenSymbols ∧
        t.getTokenForSymbol s = some tok ∧
        ¬(tok.standard = "fa1.2") ∧
        c = ClientCall.tokenAllowance tok.address req.address
          req.spender ("fa2") tok.tokenId tok.decimals := by
  simp only [allowancesParts]
  rw [allowFold_calls]
  constructor
  · rintro (h | ⟨s, tok, hmem, hns, hcall⟩)
    · simp at h
    · rcases (mem_getTokenSymbolsToTokens t req.tokenSymbols s tok).mp
        hmem with ⟨hs, hlk⟩
      exact ⟨s, tok, hs, hlk, hns, hcall⟩
  · rintro ⟨s, tok, hs, hlk, hns, hcall⟩
    exact Or.inr ⟨s, tok,
      (mem_getTokenSymbolsToTokens t req.tokenSymbols s tok).mpr
        ⟨hs, hlk⟩, hns, hcall⟩

/-- The balance request has at least one fetchable symbol: the native
symbol is requested, or some requested symbol resolves to a non-native
token with a defined tokenId. -/
def balHasFetchable (t : Tezosish) (req : BalanceRequest) : Prop :=
  t.nativeTokenSymbol ∈ req.tokenSymbols ∨
    ∃ s tok tid, s ∈ req.tokenSymbols ∧
      t.getTokenForSymbol s = some tok ∧
      s ≠ t.nativeTokenSymbol ∧ tok.tokenId = some tid

/-- The allowances request has at least one symbol that resolves in the
registry. -/
def allowHasResolvable (t : Tezosish) (req : AllowancesRequest) : Prop :=
  ∃ s tok, s ∈ req.tokenSymbols ∧ t.getTokenForSymbol s = some tok

theorem balancesParts_ne_nil_iff (t : Tezosish) (req : BalanceRequest) :
    (balancesParts t req).1 ≠ [] ↔ balHasFetchable t req := by
  constructor
  · intro hne
    obtain ⟨p, hp⟩ := List.exists_mem_of_ne_nil _ hne
    rcases (balancesParts_mem t req p.1 p.2).mp (by simpa using hp) with
      ⟨_, hmem, _⟩ | ⟨tok, tid, hs, hlk, hneq, hid, _⟩
    · exact Or.inl hmem
    · exact Or.inr ⟨p.1, tok, tid, hs, hlk, hneq, hid⟩
  · rintro (hmem | ⟨s, tok, tid, hs, hlk, hneq, hid⟩)
    · exact List.ne_nil_of_mem
        ((balancesParts_mem t req _ _).mpr (Or.inl ⟨rfl, hmem, rfl⟩))
    · exact List.ne_nil_of_mem
        ((balancesParts_mem t req _ _).mpr
          (Or.inr ⟨tok, tid, hs, hlk, hneq, hid, rfl⟩))

theorem allowancesParts_ne_nil_iff (t : Tezosish)
    (req : AllowancesRequest) :
    (allowancesParts t req).1 ≠ [] ↔ allowHasResolvable t req := by
  constructor
  · intro hne
    obtain ⟨p, hp⟩ := List.exists_mem_of_ne_nil _ hne
    rcases (allowancesParts_mem t req p.1 p.2).mp (by simpa using hp)
      with ⟨tok, hs, hlk, _⟩
    exact ⟨p.1, tok, hs, hlk⟩
  · rintro ⟨s, tok, hs, hlk⟩
    exact List.ne_nil_of_mem
      ((allowancesParts_mem t req _ _).mpr ⟨tok, hs, hlk, rfl⟩)

/-! ### Claim C1: poll partition order -/

/-- C1: for every transaction hash, `poll` classifies it by checking the
five mempool partitions in the strict order applied, branch_delayed,
branch_refused, refused, unprocessed (statuses 1,2,3,4,5), stopping at
the first partition containing the hash; the finalized-chain lookup is
attempted only when the hash is in none of the five partitions, yielding
status 1 with non-null txData if found; when the hash is absent from all
six sources the result is status -1 with null txData; and txData is
non-null only in the applied and finalized-fallback cases. -/
theorem poll_partition_order_classification (t : Tezosish)
    (req : PollRequest) :
    (∀ a, t.getPendingTransactions.applied.find?
          (fun tx => tx.hash == req.txHash) = some a →
        (poll t req).txStatus = 1 ∧
        (poll t req).txData = some a.contents)
    ∧ (t.getPendingTransactions.applied.find?
          (fun tx => tx.hash == req.txHash) = none →
       (t.getPendingTransactions.branch_delayed.find?
          (fun tx => tx.hash == req.txHash)).isSome = true →
        (poll t req).txStatus = 2 ∧ (poll t req).txData = none)
    ∧ (t.getPendingTransactions.applied.find?
          (fun tx => tx.hash == req.txHash) = none →
       t.getPendingTransactions.branch_delayed.find?
          (fun tx => tx.hash == req.txHash) = none →
       (t.getPendingTransactions.branch_refused.find?
          (fun tx => tx.hash == req.txHash)).isSome = true →
        (poll t req).txStatus = 3 ∧ (poll t req).txData = none)
    ∧ (t.getPendingTransactions.applied.find?
          (fun tx => tx.hash == req.txHash) = none →
       t.getPendingTransactions.branch_delayed.find?
          (fun tx => tx.hash == req.txHash) = none →
       t.getPendingTransactions.branch_refused.find?
          (fun tx => tx.hash == req.txHash) = none →
       (t.getPendingTransactions.refused.find?
          (fun tx => tx.hash == req.txHash)).isSome = true →
        (poll t req).txStatus = 4 ∧ (poll t req).txData = none)
    ∧ (t.getPendingTransactions.applied.find?
          (fun tx => tx.hash == req.txHash) = none →
       t.getPendingTransactions.branch_delayed.find?
          (fun tx => tx.hash == req.txHash) = none →
       t.getPendingTransactions.branch_refused.find?
          (fun tx => tx.hash == req.txHash) = none →
       t.getPendingTransactions.refused.find?
          (fun tx => tx.hash == req.txHash) = none →
       (t.getPendingTransactions.unprocessed.find?
          (fun tx => tx.hash == req.txHash)).isSome = true →
        (poll t req).txStatus = 5 ∧ (poll t req).txData = none)
    ∧ (t.getPendingTransactions.applied.find?
          (fun tx => tx.hash == req.txHash) = none →
       t.getPendingTransactions.branch_delayed.find?
          (fun tx => tx.hash == req.txHash) = none →
       t.getPendingTransactions.branch_refused.find?
          (fun tx => tx.hash == req.txHash) = none →
       t.getPendingTransactions.refused.find?
          (fun tx => tx.hash == req.txHash) = none →
       t.getPendingTransactions.unprocessed.find?
          (fun tx => tx.hash == req.txHash) = none →
       ∀ tx, t.getTransaction req.txHash = some tx →
        (poll t req).txStatus = 1 ∧ (poll t req).txData = some tx)
    ∧ (t.getPendingTransactions.applied.find?
          (fun tx => tx.hash == req.txHash) = none →
       t.getPendingTransactions.branch_delayed.find?
          (fun tx => tx.hash == req.txHash) = none →
       t.getPendingTransactions.branch_refused.find?
          (fun tx => tx.hash == req.txHash) = none →
       t.getPendingTransactions.refused.find?
          (fun tx => tx.hash == req.txHash) = none →
       t.getPendingTransactions.unprocessed.find?
          (fun tx => tx.hash == req.txHash) = none →
       t.getTransaction req.txHash = none →
        (poll t req).txStatus = -1 ∧ (poll t req).txData = none)
    ∧ ((poll t req).txData ≠ none → (poll t req).txStatus = 1)
    ∧ (((t.getPendingTransactions.applied.find?
          (fun tx => tx.hash == req.txHash)).isSome = true ∨
        (t.getPendingTransactions.branch_delayed.find?
          (fun tx => tx.hash == req.txHash)).isSome = true ∨
        (t.getPendingTransactions.branch_refused.find?
          (fun tx => tx.hash == req.txHash)).isSome = true ∨
        (t.getPendingTransactions.refused.find?
          (fun tx => tx.hash == req.txHash)).isSome = true ∨
        (t.getPendingTransactions.unprocessed.find?
          (fun tx => tx.hash == req.txHash)).isSome = true) →
       poll t req = poll { t with getTransaction := fun _ => none } req) := by
  refine ⟨?_, ?_, ?_, ?_, ?_, ?_, ?_, ?_, ?_⟩
  · intro a happ
    constructor <;> simp [poll, happ]
  · intro happ hbd
    constructor <;> simp [poll, happ, hbd]
  · intro happ hbd hbr
    constructor <;> simp [poll, happ, hbd, hbr]
  · intro happ hbd hbr hrf
    constructor <;> simp [poll, happ, hbd, hbr, hrf]
  · intro happ hbd hbr hrf hup
    constructor <;> simp [poll, happ, hbd, hbr, hrf, hup]
  · intro happ hbd hbr hrf hup tx hget
    constructor <;> simp [poll, happ, hbd, hbr, hrf, hup, hget]
  · intro happ hbd hbr hrf hup hget
    constructor <;> simp [poll, happ, hbd, hbr, hrf, hup, hget]
  · intro hne
    cases happ : t.getPendingTransactions.applied.find?
        (fun tx => tx.hash == req.txHash) with
    | some a => simp [poll, happ]
    | none =>
      by_cases hbd : (t.getPendingTransactions.branch_delayed.find?
          (fun tx => tx.hash == req.txHash)).isSome = true
      · simp [poll, happ, hbd] at hne
      · by_cases hbr : (t.getPendingTransactions.branch_refused.find?
            (fun tx => tx.hash == req.txHash)).isSome = true
        · simp [poll, happ, hbd, hbr] at hne
        · by_cases hrf : (t.getPendingTransactions.refused.find?
              (fun tx => tx.hash == req.txHash)).isSome = true
          · simp [poll, happ, hbd, hbr, hrf] at hne
          · by_cases hup : (t.getPendingTransactions.unprocessed.find?
                (fun tx => tx.hash == req.txHash)).isSome = true
            · simp [poll, happ, hbd, hbr, hrf, hup] at hne
            · cases hget : t.getTransaction req.txHash with
              | some tx => simp [poll, happ, hbd, hbr, hrf, hup, hget]
              | none => simp [poll, happ, hbd, hbr, hrf, hup, hget] at hne
  · intro hor
    cases happ : t.getPendingTransactions.applied.find?
        (fun tx => tx.hash == req.txHash) with
    | some a => simp [poll, happ]
    | none =>
      by_cases hbd : (t.getPendingTransactions.branch_delayed.find?
          (fun tx => tx.hash == req.txHash)).isSome = true
      · simp [poll, happ, hbd]
      · by_cases hbr : (t.getPendingTransactions.branch_refused.find?
            (fun tx => tx.hash == req.txHash)).isSome = true
        · simp [poll, happ, hbd, hbr]
        · by_cases hrf : (t.getPendingTransactions.refused.find?
              (fun tx => tx.hash == req.txHash)).isSome = true
          · simp [poll, happ, hbd, hbr, hrf]
          · by_cases hup : (t.getPendingTransactions.unprocessed.find?
                (fun tx => tx.hash == req.txHash)).isSome = true
            · simp [poll, happ, hbd, hbr, hrf, hup]
            · rcases hor with h | h | h | h | h
              · rw [happ] at h
                simp at h
              · exact absurd h hbd
              · exact absurd h hbr
              · exact absurd h hrf
              · exact absurd h hup

/-- A concrete chain client for exercising `poll`: the hash "h3" sits
only in the branch_refused partition, and the finalized lookup finds
nothing. -/
def pollWitnessEnv : Tezosish :=
  { nativeTokenSymbol := "XTZ", chainName := "tezos", chain := "tezos",
    getTokenForSymbol := fun _ => none,
    getNativeBalance := fun _ => ⟨0, 6⟩,
    getTokenBalance := fun _ _ _ _ => ⟨0, 6⟩,
    getTokenAllowance := fun _ _ _ _ _ _ => ⟨0, 6⟩,
    getCurrentBlockNumber := 100,
    getPendingTransactions :=
      { applied := [⟨"h1", Json.str "applied-contents"⟩],
        branch_delayed := [],
        branch_refused := [⟨"h3", Json.null⟩],
        refused := [],
        unprocessed := [] },
    getTransaction := fun _ => none,
    getWallet := fun _ => Except.error "no wallet",
    clock0 := 0, clock1 := 0 }

/-- Witness for C1 at a concrete client: a hash present only in
branch_refused is classified with status 3 and null txData. -/
theorem poll_partition_order_classification_witness :
    (poll pollWitnessEnv ⟨"h3"⟩).txStatus = 3 ∧
    (poll pollWitnessEnv ⟨"h3"⟩).txData = none :=
  (poll_partition_order_classification pollWitnessEnv ⟨"h3"⟩).2.2.1
    rfl rfl rfl

/-! ### Claim C2: approve fault taxonomy -/

theorem approve_fault_inversion (t : Tezosish) (req : ApproveRequest)
    (e : HttpException)
    (he : (approve t req).1 = .error (.httpException e)) :
    (∃ err, t.getWallet req.address = .error err ∧
      e = ⟨500, LOAD_WALLET_ERROR_MESSAGE ++ err,
        LOAD_WALLET_ERROR_CODE⟩) ∨
    ((∃ w, t.getWallet req.address = .ok w) ∧
      t.getTokenForSymbol req.token = none ∧
      e = ⟨500, TOKEN_NOT_SUPPORTED_ERROR_MESSAGE ++ req.token,
        TOKEN_NOT_SUPPORTED_ERROR_CODE⟩) ∨
    (∃ tok, t.getTokenForSymbol req.token = some tok ∧
      ¬(tok.standard = "fa1.2") ∧ ¬(tok.standard = "fa2") ∧
      e = ⟨500, TOKEN_NOT_SUPPORTED_ERROR_MESSAGE,
        TOKEN_NOT_SUPPORTED_ERROR_CODE⟩) ∨
    (∃ tok w c call op, t.getTokenForSymbol req.token = some tok ∧
      t.getWallet req.address = .ok w ∧
      w.contractAt tok.address = .ok c ∧ c.send call = .ok op ∧
      op.operationResults = [] ∧
      e = ⟨500, TOKEN_NOT_SUPPORTED_ERROR_MESSAGE,
        TOKEN_NOT_SUPPORTED_ERROR_CODE⟩) := by
  cases hw : t.getWallet req.address with
  | error err =>
    have ha : approve t req =
        (.error (.httpException ⟨500, LOAD_WALLET_ERROR_MESSAGE ++ err,
          LOAD_WALLET_ERROR_CODE⟩), []) := by
      simp [approve, hw]
    rw [ha] at he
    simp at he
    subst he
    exact Or.inl ⟨err, rfl, rfl⟩
  | ok w =>
    cases htok : t.getTokenForSymbol req.token with
    | none =>
      have ha : approve t req =
          (.error (.httpException ⟨500,
            TOKEN_NOT_SUPPORTED_ERROR_MESSAGE ++ req.token,
            TOKEN_NOT_SUPPORTED_ERROR_CODE⟩), []) := by
        simp [approve, hw, htok]
      rw [ha] at he
      simp at he
      subst he
      exact Or.inr (Or.inl ⟨⟨w, rfl⟩, rfl, rfl⟩)
    | some tok =>
      cases hamt : approveAmount req.amount tok.decimals with
      | none =>
        have ha : approve t req =
            (.error (.clientError ("invalid decimal value")), []) := by
          simp [approve, hw, htok, hamt]
        rw [ha] at he
        simp at he
      | some v =>
        cases hcontr : w.contractAt tok.address with
        | error ce =>
          have ha : approve t req = (.error (.clientError ce), []) := by
            simp [approve, hw, htok, hamt, hcontr]
          rw [ha] at he
          simp at he
        | ok c =>
          by_cases h12 : tok.standard = "fa1.2"
          · cases hsend : c.send (ContractCall.approve req.spender v) with
            | error se =>
              have ha : approve t req = (.error (.clientError se),
                  [ContractCall.approve req.spender v]) := by
                simp [approve, hw, htok, hamt, hcontr, h12, hsend]
              rw [ha] at he
              simp at he
            | ok op =>
              cases hres : op.operationResults with
              | nil =>
                have ha : approve t req =
                    (.error (.httpException ⟨500,
                      TOKEN_NOT_SUPPORTED_ERROR_MESSAGE,
                      TOKEN_NOT_SUPPORTED_ERROR_CODE⟩),
                     [ContractCall.approve req.spender v]) := by
                  simp [approve, hw, htok, hamt, hcontr, h12, hsend, hres]
                rw [ha] at he
                simp at he
                subst he
                exact Or.inr (Or.inr (Or.inr ⟨tok, w, c,
                  ContractCall.approve req.spender v, op, rfl, rfl,
                  hcontr, hsend, hres, rfl⟩))
              | cons o rest =>
                cases hchain : w.getChainId with
                | error che =>
                  have ha : approve t req = (.error (.clientError che),
                      [ContractCall.approve req.spender v]) := by
                    simp [approve, hw, htok, hamt, hcontr, h12, hsend,
                      hres, hchain]
                  rw [ha] at he
                  simp at he
                | ok chainId =>
                  have ha : (approve t req).1 = .ok
                      { network := t.chainName, timestamp := t.clock0,
                        latency := t.clock1 - t.clock0,
                        tokenAddress := tok.address,
                        spender := req.spender,
                        amount := bigNumberWithDecimalToStr v
                          tok.decimals,
                        nonce := jsParseInt o.counter,
                        approval := toTezosTransaction op.hash o
                          chainId } := by
                    simp [approve, hw, htok, hamt, hcontr, h12, hsend,
                      hres, hchain]
                  rw [ha] at he
                  simp at he
          · by_cases h2 : tok.standard = "fa2"
            · cases hsend : c.send (ContractCall.updateOperatorsAddOperator
                  req.address req.spender tok.tokenId) with
              | error se =>
                have ha : approve t req = (.error (.clientError se),
                    [ContractCall.updateOperatorsAddOperator req.address
                      req.spender tok.tokenId]) := by
                  simp [approve, hw, htok, hamt, hcontr, h12, h2, hsend]
                rw [ha] at he
                simp at he
              | ok op =>
                cases hres : op.operationResults with
                | nil =>
                  have ha : approve t req =
                      (.error (.httpException ⟨500,
                        TOKEN_NOT_SUPPORTED_ERROR_MESSAGE,
                        TOKEN_NOT_SUPPORTED_ERROR_CODE⟩),
                       [ContractCall.updateOperatorsAddOperator
                         req.address req.spender tok.tokenId]) := by
                    simp [approve, hw, htok, hamt, hcontr, h12, h2,
                      hsend, hres]
                  rw [ha] at he
                  simp at he
                  subst he
                  exact Or.inr (Or.inr (Or.inr ⟨tok, w, c,
                    ContractCall.updateOperatorsAddOperator req.address
                      req.spender tok.tokenId, op, rfl, rfl, hcontr,
                    hsend, hres, rfl⟩))
                | cons o rest =>
                  cases hchain : w.getChainId with
                  | error che =>
                    have ha : approve t req = (.error (.clientError che),
                        [ContractCall.updateOperatorsAddOperator
                          req.address req.spender tok.tokenId]) := by
                      simp [approve, hw, htok, hamt, hcontr, h12, h2,
                        hsend, hres, hchain]
                    rw [ha] at he
                    simp at he
                  | ok chainId =>
                    have ha : (approve t req).1 = .ok
                        { network := t.chainName, timestamp := t.clock0,
                          latency := t.clock1 - t.clock0,
                          tokenAddress := tok.address,
                          spender := req.spender,
                          amount := bigNumberWithDecimalToStr v
                            tok.decimals,
                          nonce := jsParseInt o.counter,
                          approval := toTezosTransaction op.hash o
                            chainId } := by
                      simp [approve, hw, htok, hamt, hcontr, h12, h2,
                        hsend, hres, hchain]
                    rw [ha] at he
                    simp at he
            · have ha : approve t req =
                  (.error (.httpException ⟨500,
                    TOKEN_NOT_SUPPORTED_ERROR_MESSAGE,
                    TOKEN_NOT_SUPPORTED_ERROR_CODE⟩), []) := by
                simp [approve, hw, htok, hamt, hcontr, h12, h2]
              rw [ha] at he
              simp at he
              subst he
              exact Or.inr (Or.inr (Or.inl ⟨tok, rfl, h12, h2, rfl⟩))

/-- C2: `approve` raises the wallet-load fault (never the
token-not-supported fault) when wallet loading fails, and this check
precedes token resolution; it raises the token-not-supported fault
exactly when the symbol is unknown, the token's standard is neither
fa1.2 nor fa2, or the submitted operation carries no result entries; and
these are the only structured faults `approve` itself constructs. -/
theorem approve_fault_taxonomy (t : Tezosish) (req : ApproveRequest) :
    (∀ err, t.getWallet req.address = .error err →
      approve t req = (.error (.httpException ⟨500,
        LOAD_WALLET_ERROR_MESSAGE ++ err, LOAD_WALLET_ERROR_CODE⟩), []))
    ∧ (∀ w, t.getWallet req.address = .ok w →
       t.getTokenForSymbol req.token = none →
       approve t req = (.error (.httpException ⟨500,
         TOKEN_NOT_SUPPORTED_ERROR_MESSAGE ++ req.token,
         TOKEN_NOT_SUPPORTED_ERROR_CODE⟩), []))
    ∧ (∀ w tok v c, t.getWallet req.address = .ok w →
       t.getTokenForSymbol req.token = some tok →
       approveAmount req.amount tok.decimals = some v →
       w.contractAt tok.address = .ok c →
       ¬(tok.standard = "fa1.2") → ¬(tok.standard = "fa2") →
       approve t req = (.error (.httpException ⟨500,
         TOKEN_NOT_SUPPORTED_ERROR_MESSAGE,
         TOKEN_NOT_SUPPORTED_ERROR_CODE⟩), []))
    ∧ (∀ w tok v c op, t.getWallet req.address = .ok w →
       t.getTokenForSymbol req.token = some tok →
       approveAmount req.amount tok.decimals = some v →
       w.contractAt tok.address = .ok c →
       tok.standard = "fa1.2" →
       c.send (ContractCall.approve req.spender v) = .ok op →
       op.operationResults = [] →
       approve t req = (.error (.httpException ⟨500,
         TOKEN_NOT_SUPPORTED_ERROR_MESSAGE,
         TOKEN_NOT_SUPPORTED_ERROR_CODE⟩),
        [ContractCall.approve req.spender v]))
    ∧ (∀ w tok v c op, t.getWallet req.address = .ok w →
       t.getTokenForSymbol req.token = some tok →
       approveAmount req.amount tok.decimals = some v →
       w.contractAt tok.address = .ok c →
       tok.standard = "fa2" →
       c.send (ContractCall.updateOperatorsAddOperator req.address
         req.spender tok.tokenId) = .ok op →
       op.operationResults = [] →
       approve t req = (.error (.httpException ⟨500,
         TOKEN_NOT_SUPPORTED_ERROR_MESSAGE,
         TOKEN_NOT_SUPPORTED_ERROR_CODE⟩),
        [ContractCall.updateOperatorsAddOperator req.address req.spender
          tok.tokenId]))
    ∧ (∀ e, (approve t req).1 = .error (.httpException e) →
       e.status = 500 ∧
       (e.errorCode = LOAD_WALLET_ERROR_CODE ∨
         e.errorCode = TOKEN_NOT_SUPPORTED_ERROR_CODE) ∧
       (e.errorCode = LOAD_WALLET_ERROR_CODE →
         ∃ err, t.getWallet req.address = .error err) ∧
       (e.errorCode = TOKEN_NOT_SUPPORTED_ERROR_CODE →
         t.getTokenForSymbol req.token = none ∨
         (∃ tok, t.getTokenForSymbol req.token = some tok ∧
           ¬(tok.standard = "fa1.2") ∧ ¬(tok.standard = "fa2")) ∨
         (∃ (w : TezosToolkit) (c : TezosContract) (call : ContractCall)
             (op : TransactionOperation),
           t.getWallet req.address = .ok w ∧
           c.send call = .ok op ∧ op.operationResults = []))) := by
  refine ⟨?_, ?_, ?_, ?_, ?_, ?_⟩
  · intro err hw
    simp [approve, hw]
  · intro w hw htok
    simp [approve, hw, htok]
  · intro w tok v c hw htok hamt hcontr h12 h2
    simp [approve, hw, htok, hamt, hcontr, h12, h2]
  · intro w tok v c op hw htok hamt hcontr h12 hsend hres
    simp [approve, hw, htok, hamt, hcontr, h12, hsend, hres]
  · intro w tok v c op hw htok hamt hcontr h2 hsend hres
    by_cases h12 : tok.standard = "fa1.2"
    · exact absurd (h12.symm.trans h2) (by decide)
    · simp [approve, hw, htok, hamt, hcontr, h12, h2, hsend, hres]
  · intro e he
    rcases approve_fault_inversion t req e he with
      ⟨err, hw, rfl⟩ | ⟨⟨w, hw⟩, htok, rfl⟩ |
      ⟨tok, htok, h12, h2, rfl⟩ |
      ⟨tok, w, c, call, op, htok, hw, hcontr, hsend, hres, rfl⟩
    · refine ⟨rfl, Or.inl rfl, fun _ => ⟨err, hw⟩, fun hc => ?_⟩
      simp [LOAD_WALLET_ERROR_CODE, TOKEN_NOT_SUPPORTED_ERROR_CODE] at hc
    · refine ⟨rfl, Or.inr rfl, fun hc => ?_, fun _ => Or.inl htok⟩
      simp [LOAD_WALLET_ERROR_CODE, TOKEN_NOT_SUPPORTED_ERROR_CODE] at hc
    · refine ⟨rfl, Or.inr rfl, fun hc => ?_,
        fun _ => Or.inr (Or.inl ⟨tok, htok, h12, h2⟩)⟩
      simp [LOAD_WALLET_ERROR_CODE, TOKEN_NOT_SUPPORTED_ERROR_CODE] at hc
    · refine ⟨rfl, Or.inr rfl, fun hc => ?_,
        fun _ => Or.inr (Or.inr ⟨w, c, call, op, hw, hsend, hres⟩)⟩
      simp [LOAD_WALLET_ERROR_CODE, TOKEN_NOT_SUPPORTED_ERROR_CODE] at hc

/-- A concrete chain client whose wallet loading always fails, while the
requested token would resolve: wallet-load failure wins. -/
def approveWalletFailEnv : Tezosish :=
  { nativeTokenSymbol := "XTZ", chainName := "tezos", chain := "tezos",
    getTokenForSymbol := fun _ => none,
    getNativeBalance := fun _ => ⟨0, 6⟩,
    getTokenBalance := fun _ _ _ _ => ⟨0, 6⟩,
    getTokenAllowance := fun _ _ _ _ _ _ => ⟨0, 6⟩,
    getCurrentBlockNumber := 0,
    getPendingTransactions :=
      { applied := [], branch_delayed := [], branch_refused := [],
        refused := [], unprocessed := [] },
    getTransaction := fun _ => none,
    getWallet := fun _ => Except.error "no key material",
    clock0 := 0, clock1 := 0 }

/-- Witness for C2 at a concrete client: when wallet loading fails (with
an unknown token symbol as well), `approve` raises the wallet-load
fault, not the token-not-supported fault. -/
theorem approve_fault_taxonomy_witness :
    approve approveWalletFailEnv ⟨"o", "sp", "NOPE", none⟩ =
      (.error (.httpException ⟨500,
        LOAD_WALLET_ERROR_MESSAGE ++ "no key material",
        LOAD_WALLET_ERROR_CODE⟩), []) :=
  (approve_fault_taxonomy approveWalletFailEnv
    ⟨"o", "sp", "NOPE", none⟩).1 "no key material" rfl

/-! ### Claim C3: empty result mapping faults -/

/-- C3: for every request whose token-symbol set yields an empty result
mapping after all fetches, both `balances` and `allowances` fail with
the token-not-supported fault (HTTP status 500, message, internal code)
instead of returning an empty mapping; when at least one symbol resolves
to a fetchable token the operation succeeds with the assembled mapping,
and the response simply omits the unresolved symbols. -/
theorem aggregations_fail_on_empty_mapping (t : Tezosish)
    (breq : BalanceRequest) (areq : AllowancesRequest) :
    (balances t breq = .error ⟨500, TOKEN_NOT_SUPPORTED_ERROR_MESSAGE,
        TOKEN_NOT_SUPPORTED_ERROR_CODE⟩ ↔ ¬balHasFetchable t breq)
    ∧ (balHasFetchable t breq →
       balances t breq =
         .ok { network := t.chainName, timestamp := t.clock0,
               latency := t.clock1 - t.clock0,
               balances := (balancesParts t breq).1 })
    ∧ (∀ s, s ∈ breq.tokenSymbols → t.getTokenForSymbol s = none →
       s ≠ t.nativeTokenSymbol →
       s ∉ (balancesParts t breq).1.map Prod.fst)
    ∧ (allowances t areq = .error ⟨500, TOKEN_NOT_SUPPORTED_ERROR_MESSAGE,
        TOKEN_NOT_SUPPORTED_ERROR_CODE⟩ ↔ ¬allowHasResolvable t areq)
    ∧ (allowHasResolvable t areq →
       allowances t areq =
         .ok { network := t.chainName, timestamp := t.clock0,
               latency := t.clock1 - t.clock0, spender := areq.spender,
               approvals := (allowancesParts t areq).1 })
    ∧ (∀ s, s ∈ areq.tokenSymbols → t.getTokenForSymbol s = none →
       s ∉ (allowancesParts t areq).1.map Prod.fst) := by
  refine ⟨?_, ?_, ?_, ?_, ?_, ?_⟩
  · by_cases hp : (balancesParts t breq).1 = []
    · simp [balances, hp, ← balancesParts_ne_nil_iff]
    · simp [balances, List.isEmpty_iff, hp, ← balancesParts_ne_nil_iff]
  · intro h
    have hne := (balancesParts_ne_nil_iff t breq).mpr h
    simp [balances, List.isEmpty_iff, hne]
  · intro s hs hlk hne hmem
    rcases (balancesParts_keys t breq s).mp hmem with
      ⟨rfl, _⟩ | ⟨tok, tid, _, hlk2, _, _⟩
    · exact hne rfl
    · rw [hlk] at hlk2
      cases hlk2
  · by_cases hp : (allowancesParts t areq).1 = []
    · simp [allowances, hp, ← allowancesParts_ne_nil_iff]
    · simp [allowances, List.isEmpty_iff, hp, ← allowancesParts_ne_nil_iff]
  · intro h
    have hne := (allowancesParts_ne_nil_iff t areq).mpr h
    simp [allowances, List.isEmpty_iff, hne]
  · intro s hs hlk hmem
    rcases (allowancesParts_keys t areq s).mp hmem with ⟨tok, _, hlk2⟩
    rw [hlk] at hlk2
    cases hlk2

/-- A concrete chain client with an empty token registry. -/
def emptyRegistryEnv : Tezosish :=
  { nativeTokenSymbol := "XTZ", chainName := "tezos", chain := "tezos",
    getTokenForSymbol := fun _ => none,
    getNativeBalance := fun _ => ⟨0, 6⟩,
    getTokenBalance := fun _ _ _ _ => ⟨0, 6⟩,
    getTokenAllowance := fun _ _ _ _ _ _ => ⟨0, 6⟩,
    getCurrentBlockNumber := 0,
    getPendingTransactions :=
      { applied := [], branch_delayed := [], branch_refused := [],
        refused := [], unprocessed := [] },
    getTransaction := fun _ => none,
    getWallet := fun _ => Except.error "no key material",
    clock0 := 0, clock1 := 0 }

/-- Witness for C3 at a concrete client: a balance request whose only
symbol resolves to nothing fails with the token-not-supported fault. -/
theorem aggregations_fail_on_empty_mapping_witness :
    balances emptyRegistryEnv ⟨"addr", ["NOPE"]⟩ =
      .error ⟨500, TOKEN_NOT_SUPPORTED_ERROR_MESSAGE,
        TOKEN_NOT_SUPPORTED_ERROR_CODE⟩ :=
  (aggregations_fail_on_empty_mapping emptyRegistryEnv
    ⟨"addr", ["NOPE"]⟩ ⟨"addr", "sp", []⟩).1.mpr
    (by
      rintro (h | ⟨s, tok, tid, hs, hlk, _, _⟩)
      · simp [emptyRegistryEnv] at h
      · exact absurd hlk (by simp [emptyRegistryEnv]))

/-! ### Claim C5: fa1.2 allowances are a fixed zero without a call -/

/-- C5: in `allowances`, every resolved token of the fa1.2 standard
reports the literal string "0.000000" and no allowance query is issued
for it, independent of owner and spender; every other resolved token
issues a real allowance query parameterized by the token address, owner,
spender, tokenId, and decimals, whose decimal-scaled result is
reported. -/
theorem allowances_fa12_fixed_zero_no_call (t : Tezosish)
    (req : AllowancesRequest) :
    (∀ s val, (s, val) ∈ (allowancesParts t req).1 ↔
      ∃ tok, s ∈ req.tokenSymbols ∧
        t.getTokenForSymbol s = some tok ∧
        val = (if tok.standard = "fa1.2" then "0.000000"
          else
            tokenValueToString
              (t.getTokenAllowance tok.address req.address req.spender
                ("fa2") tok.tokenId tok.decimals)))
    ∧ (∀ c, c ∈ (allowancesParts t req).2 ↔
      ∃ s tok, s ∈ req.tokenSymbols ∧
        t.getTokenForSymbol s = some tok ∧
        ¬(tok.standard = "fa1.2") ∧
        c = ClientCall.tokenAllowance tok.address req.address
          req.spender ("fa2") tok.tokenId tok.decimals) := by
  constructor
  · intro s val
    rw [allowancesParts_mem]
    unfold allowValueFor
    exact Iff.rfl
  · intro c
    exact allowancesParts_calls t req c

/-- A concrete chain client with one fa1.2 token and one fa2 token. -/
def twoTokenEnv : Tezosish :=
  { nativeTokenSymbol := "XTZ", chainName := "tezos", chain := "tezos",
    getTokenForSymbol := fun s =>
      if s == "CTEZ" then
        some { symbol := "CTEZ", address := "KT1ctez",
               tokenId := some 0, decimals := 6, standard := "fa1.2" }
      else if s == "USDT" then
        some { symbol := "USDT", address := "KT1usdt",
               tokenId := some 0, decimals := 6, standard := "fa2" }
      else none,
    getNativeBalance := fun _ => ⟨1000000, 6⟩,
    getTokenBalance := fun _ _ _ _ => ⟨2500000, 6⟩,
    getTokenAllowance := fun _ _ _ _ _ _ => ⟨42, 6⟩,
    getCurrentBlockNumber := 0,
    getPendingTransactions :=
      { applied := [], branch_delayed := [], branch_refused := [],
        refused := [], unprocessed := [] },
    getTransaction := fun _ => none,
    getWallet := fun _ => Except.error "no key material",
    clock0 := 0, clock1 := 0 }

/-- Witness for C5 at a concrete client: the resolved fa1.2 token CTEZ
reports the literal "0.000000". -/
theorem allowances_fa12_fixed_zero_no_call_witness :
    ("CTEZ", "0.000000") ∈
      (allowancesParts twoTokenEnv ⟨"own", "sp", ["CTEZ"]⟩).1 :=
  ((allowances_fa12_fixed_zero_no_call twoTokenEnv
      ⟨"own", "sp", ["CTEZ"]⟩).1 "CTEZ" "0.000000").mpr
    ⟨{ symbol := "CTEZ", address := "KT1ctez", tokenId := some 0,
       decimals := 6, standard := "fa1.2" },
     List.mem_cons_self _ _, rfl, rfl⟩

/-! ### Claim C6: undefined tokenId handling -/

/-- A concrete chain client with a single fa2 token whose tokenId is
undefined. -/
def missingTokenIdEnv : Tezosish :=
  { nativeTokenSymbol := "XTZ", chainName := "tezos", chain := "tezos",
    getTokenForSymbol := fun s =>
      if s == "FOO" then
        some { symbol := "FOO", address := "KT1foo", tokenId := none,
               decimals := 6, standard := "fa2" }
      else none,
    getNativeBalance := fun _ => ⟨0, 6⟩,
    getTokenBalance := fun _ _ _ _ => ⟨0, 6⟩,
    getTokenAllowance := fun _ _ _ _ _ _ => ⟨5, 6⟩,
    getCurrentBlockNumber := 0,
    getPendingTransactions :=
      { applied := [], branch_delayed := [], branch_refused := [],
        refused := [], unprocessed := [] },
    getTransaction := fun _ => none,
    getWallet := fun _ => Except.error "no key material",
    clock0 := 0, clock1 := 0 }

/-- Counterexample to C6 as stated: in `allowances`, the resolved
non-native token FOO has an undefined tokenId, yet it is not skipped —
it produces an entry in the result mapping and an allowance fetch is
issued for it. -/
theorem allowances_missing_tokenId_not_skipped_cex :
    "FOO" ∈ (allowancesParts missingTokenIdEnv
        ⟨"own", "sp", ["FOO"]⟩).1.map Prod.fst ∧
    (allowancesParts missingTokenIdEnv
        ⟨"own", "sp", ["FOO"]⟩).2 =
      [ClientCall.tokenAllowance "KT1foo" "own" "sp" "fa2" none 6] := by
  constructor
  · exact (allowancesParts_keys missingTokenIdEnv
      ⟨"own", "sp", ["FOO"]⟩ "FOO").mpr
      ⟨{ symbol := "FOO", address := "KT1foo", tokenId := none,
         decimals := 6, standard := "fa2" },
       List.mem_cons_self _ _, rfl⟩
  · rfl

/-- C6 as amended: in `balances`, every resolved non-native token whose
tokenId is undefined is silently skipped (no entry, no token-balance
fetch); `allowances` does not skip such tokens — every resolved token
yields an entry, and a non-fa1.2 token issues the allowance query with
the undefined tokenId passed through. -/
theorem balances_skip_missing_tokenId_allowances_do_not (t : Tezosish)
    (breq : BalanceRequest) (areq : AllowancesRequest) :
    (∀ s tok, s ∈ breq.tokenSymbols →
      t.getTokenForSymbol s = some tok → s ≠ t.nativeTokenSymbol →
      tok.tokenId = none → s ∉ (balancesParts t breq).1.map Prod.fst)
    ∧ (∀ c, c ∈ (balancesParts t breq).2 →
       c = ClientCall.nativeBalance breq.address ∨
       ∃ s tok tid, s ∈ breq.tokenSymbols ∧
         t.getTokenForSymbol s = some tok ∧
         s ≠ t.nativeTokenSymbol ∧ tok.tokenId = some tid ∧
         c = ClientCall.tokenBalance tok.address breq.address tid
           tok.decimals)
    ∧ (∀ s tok, s ∈ areq.tokenSymbols →
       t.getTokenForSymbol s = some tok → tok.tokenId = none →
       s ∈ (allowancesParts t areq).1.map Prod.fst)
    ∧ (∀ s tok, s ∈ areq.tokenSymbols →
       t.getTokenForSymbol s = some tok → tok.tokenId = none →
       ¬(tok.standard = "fa1.2") →
       ClientCall.tokenAllowance tok.address areq.address areq.spender
         ("fa2") none tok.decimals ∈ (allowancesParts t areq).2) := by
  refine ⟨?_, ?_, ?_, ?_⟩
  · intro s tok hs hlk hne hid hmem
    rcases (balancesParts_keys t breq s).mp hmem with
      ⟨rfl, _⟩ | ⟨tok2, tid, _, hlk2, _, hid2⟩
    · exact hne rfl
    · rw [hlk] at hlk2
      injection hlk2 with h
      rw [← h, hid] at hid2
      cases hid2
  · intro c hc
    rcases (balancesParts_calls t breq c).mp hc with ⟨rfl, _⟩ | h
    · exact Or.inl rfl
    · exact Or.inr h
  · intro s tok hs hlk _
    exact (allowancesParts_keys t areq s).mpr ⟨tok, hs, hlk⟩
  · intro s tok hs hlk hid hstd
    refine (allowancesParts_calls t areq _).mpr ⟨s, tok, hs, hlk, hstd, ?_⟩
    rw [hid]

/-- Witness for the amended C6 at a concrete client: the same
tokenId-less token FOO is absent from the balances mapping but present
in the allowances mapping. -/
theorem balances_skip_missing_tokenId_allowances_do_not_witness :
    "FOO" ∉ (balancesParts missingTokenIdEnv
        ⟨"own", ["FOO"]⟩).1.map Prod.fst ∧
    "FOO" ∈ (allowancesParts missingTokenIdEnv
        ⟨"own", "sp", ["FOO"]⟩).1.map Prod.fst := by
  have h := balances_skip_missing_tokenId_allowances_do_not
    missingTokenIdEnv ⟨"own", ["FOO"]⟩ ⟨"own", "sp", ["FOO"]⟩
  exact ⟨h.1 "FOO"
      { symbol := "FOO", address := "KT1foo", tokenId := none,
        decimals := 6, standard := "fa2" }
      (List.mem_cons_self _ _) rfl (by decide) rfl,
    h.2.2.1 "FOO"
      { symbol := "FOO", address := "KT1foo", tokenId := none,
        decimals := 6, standard := "fa2" }
      (List.mem_cons_self _ _) rfl rfl⟩

/-! ### Claim C7: native balance comes from the raw request -/

/-- C7: in `balances`, the native-asset balance is fetched and inserted
under the native symbol if and only if the native symbol is a member of
the original requested-symbol list, regardless of whether it appears in
the resolved registry mapping; and the native symbol is never fetched
through the per-token token-balance path. -/
theorem balances_native_from_raw_request (t : Tezosish)
    (req : BalanceRequest) :
    ((t.nativeTokenSymbol,
        tokenValueToString (t.getNativeBalance req.address)) ∈
        (balancesParts t req).1 ↔
      t.nativeTokenSymbol ∈ req.tokenSymbols)
    ∧ (t.nativeTokenSymbol ∈ (balancesParts t req).1.map Prod.fst ↔
        t.nativeTokenSymbol ∈ req.tokenSymbols)
    ∧ (∀ val, (t.nativeTokenSymbol, val) ∈ (balancesParts t req).1 →
        val = tokenValueToString (t.getNativeBalance req.address))
    ∧ (ClientCall.nativeBalance req.address ∈ (balancesParts t req).2 ↔
        t.nativeTokenSymbol ∈ req.tokenSymbols)
    ∧ (∀ c, c ∈ (balancesParts t req).2 →
        ∀ addr own tid dec,
          c = ClientCall.tokenBalance addr own tid dec →
          ∃ s tok, s ∈ req.tokenSymbols ∧
            t.getTokenForSymbol s = some tok ∧
            s ≠ t.nativeTokenSymbol ∧ addr = tok.address) := by
  refine ⟨?_, ?_, ?_, ?_, ?_⟩
  · rw [balancesParts_mem]
    constructor
    · rintro (⟨_, hmem, _⟩ | ⟨tok, tid, hs, hlk, hne, hid, hval⟩)
      · exact hmem
      · exact absurd rfl hne
    · intro hmem
      exact Or.inl ⟨rfl, hmem, rfl⟩
  · rw [balancesParts_keys]
    constructor
    · rintro (⟨_, hmem⟩ | ⟨tok, tid, hs, hlk, hne, hid⟩)
      · exact hmem
      · exact absurd rfl hne
    · intro hmem
      exact Or.inl ⟨rfl, hmem⟩
  · intro val hmem
    rcases (balancesParts_mem t req _ _).mp hmem with
      ⟨_, _, hval⟩ | ⟨tok, tid, hs, hlk, hne, hid, hval⟩
    · exact hval
    · exact absurd rfl hne
  · rw [balancesParts_calls]
    constructor
    · rintro (⟨_, hmem⟩ | ⟨s, tok, tid, hs, hlk, hne, hid, hc⟩)
      · exact hmem
      · cases hc
    · intro hmem
      exact Or.inl ⟨rfl, hmem⟩
  · intro c hc addr own tid dec hcall
    rcases (balancesParts_calls t req c).mp hc with
      ⟨rfl, _⟩ | ⟨s, tok, tid2, hs, hlk, hne, hid, rfl⟩
    · cases hcall
    · injection hcall with h1 h2 h3 h4
      exact ⟨s, tok, hs, hlk, hne, h1.symm⟩

/-- Witness for C7 at a concrete client: the native symbol XTZ is
requested, resolves to nothing in the registry, and its balance entry is
still present under the native symbol. -/
theorem balances_native_from_raw_request_witness :
    ("XTZ",
      tokenValueToString (emptyRegistryEnv.getNativeBalance "addr")) ∈
      (balancesParts emptyRegistryEnv ⟨"addr", ["XTZ"]⟩).1 :=
  (balances_native_from_raw_request emptyRegistryEnv
    ⟨"addr", ["XTZ"]⟩).1.mpr (List.mem_cons_self _ _)

/-! ### Claim C4: approve amount scaling -/

theorem takeWhile_digits_dot (w f : List Char)
    (hw : w.all Char.isDigit = true) :
    (w ++ '.' :: f).takeWhile Char.isDigit = w := by
  induction w with
  | nil =>
    simp [List.takeWhile_cons, (by decide : Char.isDigit '.' = false)]
  | cons c w2 ih =>
    rw [List.all_cons] at hw
    have hc := Bool.and_eq_true_iff.mp hw
    simp [List.takeWhile_cons, hc.1, ih hc.2]

theorem dropWhile_digits_dot (w f : List Char)
    (hw : w.all Char.isDigit = true) :
    (w ++ '.' :: f).dropWhile Char.isDigit = '.' :: f := by
  induction w with
  | nil =>
    simp [List.dropWhile_cons, (by decide : Char.isDigit '.' = false)]
  | cons c w2 ih =>
    rw [List.all_cons] at hw
    have hc := Bool.and_eq_true_iff.mp hw
    simp [List.dropWhile_cons, hc.1, ih hc.2]

/-- C4: in `approve`, a supplied amount string is scaled by the token's
10^decimals to the on-chain approval value (e.g. "1.5" with 6 decimals
gives 1500000); an omitted amount yields the maximum unsigned 256-bit
integer 2^256 - 1 as the value. -/
theorem approve_amount_scaling :
    (utils_parseUnits "1.5" 6 = some 1500000)
    ∧ (MaxUint256 = 2 ^ 256 - 1)
    ∧ (∀ d, approveAmount none d = some MaxUint256)
    ∧ (∀ (amount : String) (d : Nat), ¬(amount = "") →
        approveAmount (some amount) d = utils_parseUnits amount d)
    ∧ (∀ (value : String) (w f : List Char) (d : Nat),
        value.data = w ++ '.' :: f → w ≠ [] →
        w.all Char.isDigit = true → f.all Char.isDigit = true →
        f ≠ [] → f.length ≤ d →
        utils_parseUnits value d =
          some ((digitsVal w * 10 ^ d +
            digitsVal f * 10 ^ (d - f.length) : Nat) : Int))
    ∧ (∀ (t : Tezosish) (req : ApproveRequest) (w : TezosToolkit)
        (tok : TokenInfo) (v : Int) (c : TezosContract),
        t.getWallet req.address = .ok w →
        t.getTokenForSymbol req.token = some tok →
        tok.standard = "fa1.2" →
        approveAmount req.amount tok.decimals = some v →
        w.contractAt tok.address = .ok c →
        (approve t req).2 = [ContractCall.approve req.spender v]) := by
  refine ⟨by decide, rfl, fun d => rfl, ?_, ?_, ?_⟩
  · intro amount d hne
    simp [approveAmount, jsTruthyStr, hne]
  · intro value w f d hdata hwne hw hf hfne hle
    rcases hw2 : w with _ | ⟨c0, w2⟩
    · exact absurd hw2 hwne
    · subst hw2
      rw [List.cons_append] at hdata
      rw [List.all_cons] at hw
      have hc := Bool.and_eq_true_iff.mp hw
      have hc0ne : ¬(c0 = '-') := by
        intro h
        rw [h] at hc
        exact absurd hc.1 (by decide)
      have ht := takeWhile_digits_dot (c0 :: w2) f (by
        rw [List.all_cons]
        exact Bool.and_eq_true_iff.mpr hc)
      have hd := dropWhile_digits_dot (c0 :: w2) f (by
        rw [List.all_cons]
        exact Bool.and_eq_true_iff.mpr hc)
      rw [List.cons_append] at ht hd
      rw [utils_parseUnits, hdata]
      dsimp only
      rw [if_neg hc0ne, parseFixedCore]
      rw [if_neg (by simp : ¬(c0 :: (w2 ++ '.' :: f) = []))]
      rw [ht, hd]
      simp only [hf, if_true, hfne, if_false]
      rw [if_neg (Nat.not_lt.mpr hle)]
  · intro t req w tok v c hw htok h12 hamt hcontr
    cases hsend : c.send (ContractCall.approve req.spender v) with
    | error e =>
      simp [approve, hw, htok, hamt, hcontr, h12, hsend]
    | ok op =>
      cases hres : op.operationResults with
      | nil => simp [approve, hw, htok, hamt, hcontr, h12, hsend, hres]
      | cons o rest =>
        cases hchain : w.getChainId with
        | error e2 =>
          simp [approve, hw, htok, hamt, hcontr, h12, hsend, hres,
            hchain]
        | ok cid =>
          simp [approve, hw, htok, hamt, hcontr, h12, hsend, hres,
            hchain]

/-- A sample chain-native operation result used by the concrete
contract below. -/
def sampleOpResult : OperationContentsAndResultTransaction :=
  { destination := "KT1ctez", source := "own", counter := "12",
    gas_limit := "100", storage_limit := "20", amount := "0",
    parameters := some (Json.obj [("entrypoint", Json.str "approve")]) }

/-- A concrete contract whose submissions succeed with one result. -/
def okContract : TezosContract :=
  { send := fun _ =>
      .ok { hash := "oph", operationResults := [sampleOpResult] } }

/-- A concrete wallet toolkit that resolves any contract and knows the
chain id. -/
def okWallet : TezosToolkit :=
  { contractAt := fun _ => .ok okContract,
    getChainId := .ok "NetXnHfVqm9iesp" }

/-- The two-token client with working wallet loading. -/
def approveReadyEnv : Tezosish :=
  { twoTokenEnv with getWallet := fun _ => Except.ok okWallet }

/-- Witness for C4 at a concrete client: approving "1.5" of the
6-decimals fa1.2 token sends the on-chain value 1500000. -/
theorem approve_amount_scaling_witness :
    (approve approveReadyEnv ⟨"own", "sp", "CTEZ", some "1.5"⟩).2 =
      [ContractCall.approve "sp" 1500000] :=
  approve_amount_scaling.2.2.2.2.2 approveReadyEnv
    ⟨"own", "sp", "CTEZ", some "1.5"⟩ okWallet
    { symbol := "CTEZ", address := "KT1ctez", tokenId := some 0,
      decimals := 6, standard := "fa1.2" }
    1500000 okContract rfl rfl rfl (by decide) rfl

/-! ### Claim C8: fa2 approval operation shape -/

/-- C8: in `approve` on an fa2 token, the constructed operation
parameters contain exactly the owner address, the spender as operator,
and the token's tokenId — and never an amount field (the
`updateOperatorsAddOperator` call carries no amount); the scaled amount
is still computed and reported in the response's amount field. -/
theorem approve_fa2_operator_params (t : Tezosish) (req : ApproveRequest)
    (w : TezosToolkit) (tok : TokenInfo) (v : Int) (c : TezosContract)
    (hw : t.getWallet req.address = .ok w)
    (htok : t.getTokenForSymbol req.token = some tok)
    (h2 : tok.standard = "fa2")
    (hamt : approveAmount req.amount tok.decimals = some v)
    (hcontr : w.contractAt tok.address = .ok c) :
    (approve t req).2 = [ContractCall.updateOperatorsAddOperator
        req.address req.spender tok.tokenId]
    ∧ (∀ resp, (approve t req).1 = .ok resp →
        resp.amount = bigNumberWithDecimalToStr v tok.decimals) := by
  have h12 : ¬(tok.standard = "fa1.2") := by
    rw [h2]
    decide
  constructor
  · cases hsend : c.send (ContractCall.updateOperatorsAddOperator
        req.address req.spender tok.tokenId) with
    | error e =>
      simp [approve, hw, htok, hamt, hcontr, h12, h2, hsend]
    | ok op =>
      cases hres : op.operationResults with
      | nil =>
        simp [approve, hw, htok, hamt, hcontr, h12, h2, hsend, hres]
      | cons o rest =>
        cases hchain : w.getChainId with
        | error e2 =>
          simp [approve, hw, htok, hamt, hcontr, h12, h2, hsend, hres,
            hchain]
        | ok cid =>
          simp [approve, hw, htok, hamt, hcontr, h12, h2, hsend, hres,
            hchain]
  · intro resp hresp
    cases hsend : c.send (ContractCall.updateOperatorsAddOperator
        req.address req.spender tok.tokenId) with
    | error e =>
      simp [approve, hw, htok, hamt, hcontr, h12, h2, hsend] at hresp
    | ok op =>
      cases hres : op.operationResults with
      | nil =>
        simp [approve, hw, htok, hamt, hcontr, h12, h2, hsend, hres]
          at hresp
      | cons o rest =>
        cases hchain : w.getChainId with
        | error e2 =>
          simp [approve, hw, htok, hamt, hcontr, h12, h2, hsend, hres,
            hchain] at hresp
        | ok cid =>
          simp [approve, hw, htok, hamt, hcontr, h12, h2, hsend, hres,
            hchain] at hresp
          rw [← hresp]

/-- Witness for C8 at a concrete client: approving the fa2 token USDT
constructs exactly the add-operator call with owner, operator = spender
and tokenId. -/
theorem approve_fa2_operator_params_witness :
    (approve approveReadyEnv ⟨"own", "sp", "USDT", some "1.5"⟩).2 =
      [ContractCall.updateOperatorsAddOperator "own" "sp" (some 0)] :=
  (approve_fa2_operator_params approveReadyEnv
    ⟨"own", "sp", "USDT", some "1.5"⟩ okWallet
    { symbol := "USDT", address := "KT1usdt", tokenId := some 0,
      decimals := 6, standard := "fa2" }
    1500000 okContract rfl rfl rfl (by decide) rfl).1

/-! ### Claim C9: transaction normalization -/

/-- C9: for every chain-native operation with non-negative integer
gas_limit and storage_limit, the normalized CustomTransaction's gasLimit
equals the decimal string of gas_limit + storage_limit; maxFeePerGas and
maxPriorityFeePerGas are always null; value is the source operation's
amount passed through unchanged (raw chain units); and data is the JSON
serialization of the operation's parameters. -/
theorem toTezosTransaction_normalization (hash : String)
    (transaction : OperationContentsAndResultTransaction)
    (chainId : String) (g s : Int)
    (hg : jsParseInt transaction.gas_limit = some g)
    (hs : jsParseInt transaction.storage_limit = some s)
    (hg0 : 0 ≤ g) (hs0 : 0 ≤ s) :
    (toTezosTransaction hash transaction chainId).gasLimit =
      toString (g + s)
    ∧ (toTezosTransaction hash transaction chainId).maxFeePerGas = none
    ∧ (toTezosTransaction hash transaction
        chainId).maxPriorityFeePerGas = none
    ∧ (toTezosTransaction hash transaction chainId).value =
        transaction.amount
    ∧ (toTezosTransaction hash transaction chainId).data =
        Option.map Json.stringify transaction.parameters := by
  refine ⟨?_, rfl, rfl, rfl, rfl⟩
  simp [toTezosTransaction, jsAddNaN, jsNumberToString, hg, hs]

/-- Witness for C9 at a concrete operation: gas_limit "100" and
storage_limit "20" normalize to the gasLimit string "120", with null fee
fields and the amount passed through. -/
theorem toTezosTransaction_normalization_witness :
    (toTezosTransaction "oph" sampleOpResult "cid").gasLimit = "120" ∧
    (toTezosTransaction "oph" sampleOpResult "cid").value = "0" := by
  have h := toTezosTransaction_normalization "oph" sampleOpResult "cid"
    100 20 (by decide) (by decide) (by decide) (by decide)
  refine ⟨?_, h.2.2.2.1⟩
  rw [h.1]
  decide

/-! ### Claim C10: empty-string amount is truthiness-tested -/

/-- C10: in `approve`, a supplied amount equal to the empty string "" is
treated the same as an omitted amount — the approval value becomes the
maximum unsigned 256-bit sentinel, because the amount is tested for
truthiness, not presence; the whole call behaves identically to the
omitted-amount call. -/
theorem approve_empty_amount_is_unlimited (t : Tezosish)
    (req : ApproveRequest) (d : Nat) :
    approveAmount (some "") d = some MaxUint256
    ∧ approveAmount none d = some MaxUint256
    ∧ (req.amount = some "" →
        approve t req = approve t { req with amount := none }) := by
  refine ⟨rfl, rfl, ?_⟩
  obtain ⟨ad, sp, tk, am⟩ := req
  intro ham
  simp only at ham
  subst ham
  simp only [approve, approveAmount, jsTruthyStr, beq_self_eq_true,
    Bool.not_true, Option.getD_some, Option.getD_none]

/-- Witness for C10 at a concrete client: approving with amount "" is
the same call as approving with no amount at all. -/
theorem approve_empty_amount_is_unlimited_witness :
    approve approveReadyEnv ⟨"own", "sp", "CTEZ", some ""⟩ =
      approve approveReadyEnv ⟨"own", "sp", "CTEZ", none⟩ :=
  (approve_empty_amount_is_unlimited approveReadyEnv
    ⟨"own", "sp", "CTEZ", some ""⟩ 0).2.2 rfl
